import Mathlib

/-!
Shallow embedding of `src/model_factory_generator.py`.

The Python module builds, for each SQLAlchemy model class, a `factory_boy`
factory: `make_factory` walks the schema graph recursively, generating one
factory attribute per column (override value or synthetic provider), wiring
declared relationships as `SubFactory` / post-generation appends, inferring
extra relationships from `_id`-suffixed foreign-key columns, and memoizing
factories in `factory_registry` while `RegistryModelFactory._create`
memoizes produced instances in `model_instance_registry`.

The embedding represents the mutable process state (`tables_to_models`,
the two registries, the heap of factory class objects and of produced
instances) as an explicit `St` record threaded through every operation,
and bounds the unbounded Python recursion by a fuel parameter: running out
of fuel is reported as the distinguished error `Err.outOfFuel`, so a run
of the Python code that terminates corresponds to all sufficiently large
fuels succeeding, and an infinite recursion corresponds to every fuel
ending in `Err.outOfFuel`.
-/

namespace MFG

/-- Python runtime values as far as the generator manipulates them:
override entries (`overrides[table][column]`) and literal defaults.
`vEmptyDict` is the literal `{}` the JSON providers yield. -/
inductive Val where
  | vNone
  | vBool (b : Bool)
  | vInt (n : Int)
  | vStr (s : String)
  | vEmptyDict
deriving DecidableEq, Repr

/-- Python truthiness on `Val`, as used by `if override:` (line 110):
`None`, `False`, `0`, the empty string and the empty dict are falsy. -/
def truthy : Val → Bool
  | .vNone => false
  | .vBool b => b
  | .vInt n => n != 0
  | .vStr s => s != ""
  | .vEmptyDict => false

/-- SQLAlchemy column types distinguished by the `data_providers` table
(lines 42-59); `other` stands for any column type without an entry. -/
inductive ColType where
  | uuid
  | string (length : Option Nat)
  | integer
  | float
  | boolean
  | datetime
  | enum (enums : List String)
  | pgEnum (enums : List String)
  | json
  | jsonb
  | other (tag : String)
deriving DecidableEq, Repr

/-- Column descriptor: the fields of a SQLAlchemy `Column` the generator
reads. `foreign_keys` lists the fullnames of the target tables of each
foreign key on the column, in iteration order of `col.foreign_keys`. -/
structure Column where
  name : String
  key : String
  ctype : ColType
  primary_key : Bool
  foreign_keys : List String
deriving DecidableEq, Repr

/-- Declared relationship: one entry of `model.__mapper__.relationships`.
`local_columns` lists the keys of `relation.local_columns` in iteration
order (SQLAlchemy guarantees at least one); `target` is
`relationship.target.fullname`. -/
structure Relationship where
  key : String
  local_columns : List String
  target : String
  uselist : Bool
deriving DecidableEq, Repr

/-- Model class: the parts of a declarative SQLAlchemy model the generator
reads or mutates.  In this code base no table has an explicit schema, so
`__tablename__` and `__table__.fullname` coincide and both are modelled by
`fullname`.  `serialize_rules` is `none` when the class has no such
attribute (the `hasattr` test at line 139). -/
structure Model where
  fullname : String
  clsName : String
  columns : List Column
  relationships : List Relationship
  serialize_rules : Option (List String)
deriving DecidableEq, Repr

/-- Faker declarations produced by the provider table. -/
inductive FakerKind where
  | uuid4
  | pystr (max_chars : Nat)
  | random_int
  | pybool
  | date_this_month
  | random_element (elements : List String)
deriving DecidableEq, Repr

/-- Value-producing declarations: a Faker call, `FuzzyFloat(0.0)`, or the
literal `{}` the JSON providers return. -/
inductive ProvVal where
  | faker (k : FakerKind)
  | fuzzyFloat
  | constJson
deriving DecidableEq, Repr

/-- One factory attribute, i.e. one entry of `factory_attributes`:
a verbatim override value, a provider-derived declaration, a
`SubFactory(f)` (identified by the factory object id `fid`), or the
post-generation append built by `_generate_many_to_one` (lines 23-29). -/
inductive FAttr where
  | override (v : Val)
  | provided (p : ProvVal)
  | subF (fid : Nat)
  | postGenMTO (fid : Nat) (relation_name : String)
deriving DecidableEq, Repr

/-- Factory class data: the `Meta.model` table name and the attribute
dictionary, in insertion order.  Each call of `type(...)` at line 149
creates a distinct class object, so factories are identified by a fresh
numeric id allocated at registration time. -/
structure FactData where
  meta_model : String
  attrs : List (String × FAttr)
deriving DecidableEq, Repr

/-- Field values of a produced instance: a constant, a generated random
value (with an allocation seed standing for the randomness), or a
reference to another instance by heap id. -/
inductive RVal where
  | cval (v : Val)
  | gval (p : ProvVal) (seed : Nat)
  | ref (iid : Nat)
deriving DecidableEq, Repr

/-- One produced model instance: its table, scalar/reference fields, and
the list-valued relationship attributes that post-generation hooks append
to. -/
structure Inst where
  of_model : String
  fields : List (String × RVal)
  colls : List (String × List Nat)
deriving DecidableEq, Repr

/-- Whole mutable state of one `factory_generator` closure: the live model
classes (mutated by `setattr` at lines 134-142), the heap of factory class
objects with its allocation counter, the two registries, the heap of
produced instances with its allocation counter, and a seed counter
standing for the random generator. -/
structure St where
  models : List Model
  facts : List (Nat × FactData)
  nextFid : Nat
  factory_registry : List (String × Nat)
  model_instance_registry : List (String × Nat)
  heap : List (Nat × Inst)
  nextIid : Nat
  nextSeed : Nat
deriving DecidableEq, Repr

/-- Errors: `outOfFuel` marks recursion deeper than the fuel bound; the
other constructors model the `KeyError` raised by `data_providers[...]`
(line 114) and `tables_to_models[...]` (lines 122 and 132), and a call of
a factory id that does not exist. -/
inductive Err where
  | outOfFuel
  | missingProvider (col : String)
  | unknownTable (t : String)
  | unknownFactory (fid : Nat)
deriving DecidableEq, Repr

/-- Lookup in a string-keyed Python dict. -/
def dlookup {α : Type} : List (String × α) → String → Option α
  | [], _ => none
  | (k, v) :: rest, key => if k = key then some v else dlookup rest key

/-- Assignment `d[key] = v` in a Python dict: replaces the value of an
existing key in place, else appends a new entry. -/
def dinsert {α : Type} : List (String × α) → String → α → List (String × α)
  | [], key, v => [(key, v)]
  | (k, w) :: rest, key, v =>
    if k = key then (key, v) :: rest else (k, w) :: dinsert rest key v

/-- Lookup in a heap keyed by numeric object ids. -/
def nlookup {α : Type} : List (Nat × α) → Nat → Option α
  | [], _ => none
  | (k, v) :: rest, key => if k = key then some v else nlookup rest key

/-- In-place mutation of one heap entry. -/
def nupdate {α : Type} : List (Nat × α) → Nat → (α → α) → List (Nat × α)
  | [], _, _ => []
  | (k, v) :: rest, key, f =>
    if k = key then (k, f v) :: rest else (k, v) :: nupdate rest key f

/-- Lookup of a model class by table fullname (the content of the
`tables_to_models` dict built at lines 37-41). -/
def lookupModel : List Model → String → Option Model
  | [], _ => none
  | m :: rest, t => if m.fullname = t then some m else lookupModel rest t

/-- In-place mutation of the model class registered under a fullname. -/
def updateModel : List Model → String → (Model → Model) → List Model
  | [], _, _ => []
  | m :: rest, t, f =>
    if m.fullname = t then f m :: rest else m :: updateModel rest t f

/-- Assignment of a relationship attribute on a model class: Python class
attribute assignment replaces an attribute of the same name, else adds a
new one; SQLAlchemy declarative registers it on the mapper. -/
def relSet : List Relationship → Relationship → List Relationship
  | [], r => [r]
  | r0 :: rest, r => if r0.key = r.key then r :: rest else r0 :: relSet rest r

/-- Combined effect on a model class of one inferred-relationship
materialization (lines 134-142): `setattr` installs the new relationship
attribute (declarative registers a scalar many-to-one joined on the
original `_id` column), and the `serialize_rules` tuple, when the class
has one, is extended with the exclusion string. -/
def setattrFn (rel : Relationship) (x : String) (m : Model) : Model :=
  { m with relationships := relSet m.relationships rel,
           serialize_rules := m.serialize_rules.map (fun l => l ++ [x]) }

/-- Append to the list attribute `getattr(self, relation_name)` of an
instance (line 27); a missing entry behaves as an empty collection. -/
def collAppend : List (String × List Nat) → String → Nat → List (String × List Nat)
  | [], rn, i => [(rn, [i])]
  | (k, xs) :: rest, rn, i =>
    if k = rn then (k, xs ++ [i]) :: rest else (k, xs) :: collAppend rest rn i

/-- Python slice `s[-3:]`: the last three characters, or the whole string
when it is shorter. -/
def pySuffix3 (s : String) : String := ⟨s.data.drop (s.data.length - 3)⟩

/-- Python slice `s[:-3]`: the string without its last three characters. -/
def pyDropLast3 (s : String) : String := ⟨s.data.take (s.data.length - 3)⟩

/-- Python `col.type.length or 36`: `None` and `0` both fall back to the
default. -/
def pyOrNat : Option Nat → Nat → Nat
  | some (n + 1), _ => n + 1
  | _, d => d

/-- Provider table `data_providers` (lines 42-59), keyed by the exact
column type class; a `String` column that is a primary key gets `uuid4`
instead of `pystr`.  `none` models the `KeyError` of a missing entry. -/
def data_providers (col : Column) : Option ProvVal :=
  match col.ctype with
  | .uuid => some (.faker .uuid4)
  | .string len =>
    some (if col.primary_key = false then .faker (.pystr (pyOrNat len 36)) else .faker .uuid4)
  | .integer => some (.faker .random_int)
  | .float => some .fuzzyFloat
  | .boolean => some (.faker .pybool)
  | .datetime => some (.faker .date_this_month)
  | .enum es => some (.faker (.random_element es))
  | .pgEnum es => some (.faker (.random_element es))
  | .json => some .constJson
  | .jsonb => some .constJson
  | .other _ => none

/-- Override table supplied to `factory_generator`: table name to column
name to fixed value. -/
def Ovr : Type := List (String × List (String × Val))

/-- Override lookup `(overrides.get(table_name) or {}).get(col.name)`
(line 109). -/
def overrideFor (ov : Ovr) (table_name col_name : String) : Option Val :=
  dlookup ((dlookup ov table_name).getD []) col_name

/-- One inferred relationship record as appended to
`dynamic_relationships` (lines 100-107). -/
structure DynRel where
  foreign_table_name : String
  relation_name : String
deriving DecidableEq, Repr

/-- Column keys covered by declared relationships (lines 89-92): the set
comprehension takes `next(iter(relation.local_columns)).key`, i.e. only
the first local column of each relationship. -/
def relationColsOf (model : Model) : List String :=
  model.relationships.filterMap (fun r => r.local_columns.head?)

/-- Appending of one inferred-relationship record (lines 100-107): only a
column that actually has a foreign key contributes, using the first
foreign key discovered (`next(iter(col.foreign_keys))`) and the column
key with the `_id` suffix stripped. -/
def pushDyn (dyn : List DynRel) (col : Column) : List DynRel :=
  if col.foreign_keys ≠ [] then
    dyn ++ [{ foreign_table_name := col.foreign_keys.headD (""),
              relation_name := pyDropLast3 col.key }]
  else dyn

/-- Column loop of `make_factory` (lines 96-114).  For each column in
order: a foreign-key column whose key is covered or lacks the `_id`
suffix is skipped entirely; an uncovered `_id` foreign-key column is
recorded as an inferred relationship and still falls through; a truthy
override is assigned verbatim; otherwise the provider table is consulted
and a missing provider raises. -/
def processColumns (ov : Ovr) (table_name : String) (relation_cols : List String) :
    List Column → List DynRel → List (String × FAttr) →
    Except Err (List DynRel × List (String × FAttr))
  | [], dyn, attrs => .ok (dyn, attrs)
  | col :: rest, dyn, attrs =>
    if col.foreign_keys ≠ [] ∧ (col.key ∈ relation_cols ∨ pySuffix3 col.key ≠ "_id") then
      processColumns ov table_name relation_cols rest dyn attrs
    else
      match overrideFor ov table_name col.name with
      | some v =>
        if truthy v then
          processColumns ov table_name relation_cols rest (pushDyn dyn col)
            (dinsert attrs col.name (.override v))
        else
          match data_providers col with
          | some p =>
            processColumns ov table_name relation_cols rest (pushDyn dyn col)
              (dinsert attrs col.name (.provided p))
          | none => .error (.missingProvider col.name)
      | none =>
        match data_providers col with
        | some p =>
          processColumns ov table_name relation_cols rest (pushDyn dyn col)
            (dinsert attrs col.name (.provided p))
        | none => .error (.missingProvider col.name)

/-- Declared-relationship loop of `make_factory` (lines 116-129): a target
already in `processed_tables` is skipped; otherwise the target model is
looked up (KeyError if unknown), its factory is built recursively, and the
attribute is a `SubFactory` for scalar relationships or the
post-generation append for `uselist` relationships. -/
def processDeclared (recur : Model → St → Except Err (Nat × St)) (processed : List String) :
    List Relationship → List (String × FAttr) → St →
    Except Err (List (String × FAttr) × St)
  | [], attrs, st => .ok (attrs, st)
  | r :: rest, attrs, st =>
    if r.target ∈ processed then processDeclared recur processed rest attrs st
    else
      match lookupModel st.models r.target with
      | none => .error (.unknownTable r.target)
      | some fm =>
        match recur fm st with
        | .error e => .error e
        | .ok (fid, st1) =>
          let attr := if r.uselist = false then FAttr.subF fid else FAttr.postGenMTO fid r.key
          processDeclared recur processed rest (dinsert attrs r.key attr) st1

/-- Inferred-relationship loop of `make_factory` (lines 131-146): the
target model is looked up (KeyError if unknown) and its factory built
recursively with no check against `processed_tables`; then `setattr`
installs the new relationship on the live model class (declarative infers
a scalar many-to-one joined on the original `_id` column), the
`serialize_rules` tuple is extended when the class has one, and the
attribute is a `SubFactory`. -/
def processDynamic (recur : Model → St → Except Err (Nat × St)) (table_name : String) :
    List DynRel → List (String × FAttr) → St →
    Except Err (List (String × FAttr) × St)
  | [], attrs, st => .ok (attrs, st)
  | d :: rest, attrs, st =>
    match lookupModel st.models d.foreign_table_name with
    | none => .error (.unknownTable d.foreign_table_name)
    | some fm =>
      match recur fm st with
      | .error e => .error e
      | .ok (fid, st1) =>
        processDynamic recur table_name rest (dinsert attrs d.relation_name (.subF fid))
          { st1 with models := (updateModel st1.models table_name
              (setattrFn
                { key := d.relation_name,
                  local_columns := [d.relation_name ++ "_id"],
                  target := fm.fullname,
                  uselist := false } ("-" ++ d.relation_name))) }

/-- Recursive factory builder `make_factory` (lines 77-153), bounded by
fuel.  A registry hit returns the registered factory id with no state
change before any fuel is consumed.  Otherwise the body runs: the table
name is added to a fresh copy of `processed_tables`, the column loop,
declared-relationship loop and inferred-relationship loop run in order,
and finally a fresh factory class object is allocated and registered
(overwriting any entry registered in the meantime, as dict assignment at
line 149 does). -/
def make_factory (ov : Ovr) : Nat → Model → List String → St → Except Err (Nat × St)
  | 0, model, _, st =>
    (match dlookup st.factory_registry model.fullname with
     | some fid => .ok (fid, st)
     | none => .error .outOfFuel)
  | fuel + 1, model, processed_tables, st =>
    match dlookup st.factory_registry model.fullname with
    | some fid => .ok (fid, st)
    | none =>
      match processColumns ov model.fullname (relationColsOf model) model.columns [] [] with
      | .error e => .error e
      | .ok (dynamic_relationships, attrs0) =>
        match processDeclared
            (fun m s => make_factory ov fuel m (model.fullname :: processed_tables) s)
            (model.fullname :: processed_tables) model.relationships attrs0 st with
        | .error e => .error e
        | .ok (attrs1, st1) =>
          match processDynamic
              (fun m s => make_factory ov fuel m (model.fullname :: processed_tables) s)
              model.fullname dynamic_relationships attrs1 st1 with
          | .error e => .error e
          | .ok (attrs2, st2) =>
            .ok (st2.nextFid, { st2 with
                facts := (st2.nextFid,
                  { meta_model := model.fullname, attrs := attrs2 }) :: st2.facts,
                nextFid := st2.nextFid + 1,
                factory_registry := dinsert st2.factory_registry model.fullname st2.nextFid })

/-- Evaluation of the pre-declarations of a factory class, in attribute
order, as the factory library does before instantiating the model: an
override value becomes a constant field, a provider declaration draws a
fresh value from the random source (modelled by the seed counter), a
`SubFactory` invokes the referenced factory with the same strategy, and
post-generation declarations contribute no keyword argument. -/
def evalDecls (recur : Nat → St → Except Err (Nat × St)) :
    List (String × FAttr) → List (String × RVal) → St →
    Except Err (List (String × RVal) × St)
  | [], fields, st => .ok (fields, st)
  | (name, .override v) :: rest, fields, st =>
    evalDecls recur rest (dinsert fields name (.cval v)) st
  | (name, .provided (.faker k)) :: rest, fields, st =>
    evalDecls recur rest (dinsert fields name (.gval (.faker k) st.nextSeed))
      { st with nextSeed := st.nextSeed + 1 }
  | (name, .provided .fuzzyFloat) :: rest, fields, st =>
    evalDecls recur rest (dinsert fields name (.gval .fuzzyFloat st.nextSeed))
      { st with nextSeed := st.nextSeed + 1 }
  | (name, .provided .constJson) :: rest, fields, st =>
    evalDecls recur rest (dinsert fields name (.cval .vEmptyDict)) st
  | (name, .subF fid) :: rest, fields, st =>
    (match recur fid st with
     | .error e => .error e
     | .ok (iid, st1) => evalDecls recur rest (dinsert fields name (.ref iid)) st1)
  | (_, .postGenMTO _ _) :: rest, fields, st => evalDecls recur rest fields st

/-- Relationship collections of a freshly constructed instance: SQLAlchemy
initializes every list-valued relationship attribute empty, one per
post-generation append declaration of the factory. -/
def initColls : List (String × FAttr) → List (String × List Nat)
  | [] => []
  | (_, .postGenMTO _ rn) :: rest => (rn, []) :: initColls rest
  | _ :: rest => initColls rest

/-- Post-generation phase: each `many_to_one` hook (lines 24-27) returns
immediately when the strategy flag `create` is false, and otherwise
invokes the captured sub-factory with the create strategy and appends the
result to `getattr(self, relation_name)`.  The hooks run on whatever
instance `_create` returned, cached or fresh. -/
def runPostGen (recurCreate : Nat → St → Except Err (Nat × St)) (self : Nat) (create : Bool) :
    List (String × FAttr) → St → Except Err St
  | [], st => .ok st
  | (_, .postGenMTO fid rn) :: rest, st =>
    if create = false then runPostGen recurCreate self create rest st
    else
      match recurCreate fid st with
      | .error e => .error e
      | .ok (child, st1) =>
        runPostGen recurCreate self create rest
          { st1 with heap := (nupdate st1.heap self
              (fun inst => { inst with colls := collAppend inst.colls rn child })) }
  | (_, .override _) :: rest, st => runPostGen recurCreate self create rest st
  | (_, .provided _) :: rest, st => runPostGen recurCreate self create rest st
  | (_, .subF _) :: rest, st => runPostGen recurCreate self create rest st

/-- Invocation of a built factory under the factory library's semantics.
With `create = true` the instantiation step is
`RegistryModelFactory._create` (lines 68-75): a `model_instance_registry`
hit returns the cached instance without constructing a new one, a miss
constructs the instance, caches it and returns it; in both cases the
post-generation hooks then run with `create = True`.  With
`create = false` (build strategy) the default `_build` constructs a fresh
instance with no cache lookup and no registration, and the hooks run with
`create = False`, doing nothing. -/
def call_factory : Nat → Nat → Bool → St → Except Err (Nat × St)
  | 0, _, _, _ => .error .outOfFuel
  | fuel + 1, fid, create, st =>
    match nlookup st.facts fid with
    | none => .error (.unknownFactory fid)
    | some F =>
      match evalDecls (fun f s => call_factory fuel f create s) F.attrs [] st with
      | .error e => .error e
      | .ok (fields, st1) =>
        if create then
          match dlookup st1.model_instance_registry F.meta_model with
          | some iid =>
            match runPostGen (fun f s => call_factory fuel f true s) iid create F.attrs st1 with
            | .error e => .error e
            | .ok st2 => .ok (iid, st2)
          | none =>
            match runPostGen (fun f s => call_factory fuel f true s) st1.nextIid create F.attrs
                { st1 with
                  heap := (st1.nextIid, { of_model := F.meta_model, fields := fields,
                                          colls := initColls F.attrs }) :: st1.heap,
                  model_instance_registry :=
                    dinsert st1.model_instance_registry F.meta_model st1.nextIid,
                  nextIid := st1.nextIid + 1 } with
            | .error e => .error e
            | .ok st3 => .ok (st1.nextIid, st3)
        else
          match runPostGen (fun f s => call_factory fuel f false s) st1.nextIid create F.attrs
              { st1 with
                heap := (st1.nextIid, { of_model := F.meta_model, fields := fields,
                                        colls := initColls F.attrs }) :: st1.heap,
                nextIid := st1.nextIid + 1 } with
          | .error e => .error e
          | .ok st3 => .ok (st1.nextIid, st3)

/-- Initial state of one generation session over the given model classes:
empty registries, empty heaps, counters at zero. -/
def st0 (models : List Model) : St :=
  { models := models, facts := [], nextFid := 0, factory_registry := [],
    model_instance_registry := [], heap := [], nextIid := 0, nextSeed := 0 }

/-- Self-referencing table with an inferred relationship: `node.node_id`
is a foreign key to `node` itself, covered by no declared relationship. -/
def nodeModel : Model :=
  { fullname := "node", clsName := "Node",
    columns := [{ name := "node_id", key := "node_id", ctype := .integer,
                  primary_key := false, foreign_keys := ["node"] }],
    relationships := [], serialize_rules := none }

/-- Two tables whose only link is a pair of mutually inferred
relationships: `a.b_id` references `b` and `b.a_id` references `a`. -/
def aModel : Model :=
  { fullname := "a", clsName := "A",
    columns := [{ name := "b_id", key := "b_id", ctype := .integer,
                  primary_key := false, foreign_keys := ["b"] }],
    relationships := [], serialize_rules := none }

/-- Counterpart of `aModel` in the two-table inferred cycle. -/
def bModel : Model :=
  { fullname := "b", clsName := "B",
    columns := [{ name := "a_id", key := "a_id", ctype := .integer,
                  primary_key := false, foreign_keys := ["a"] }],
    relationships := [], serialize_rules := none }

/-- Single table with one integer column and no relationships. -/
def soloModel : Model :=
  { fullname := "solo", clsName := "Solo",
    columns := [{ name := "n", key := "n", ctype := .integer,
                  primary_key := false, foreign_keys := [] }],
    relationships := [], serialize_rules := none }

/-- Table whose only column is a foreign key named without the `_id`
suffix, pointing at a table for which no model class exists. -/
def refModel : Model :=
  { fullname := "r", clsName := "R",
    columns := [{ name := "ref", key := "ref", ctype := .integer,
                  primary_key := false, foreign_keys := ["ghost"] }],
    relationships := [], serialize_rules := none }

/-- Parent table of the end-to-end scenario: referenced by `jobModel`
through the naming convention only. -/
def pipelineModel : Model :=
  { fullname := "pipeline", clsName := "Pipeline",
    columns := [{ name := "id", key := "id", ctype := .uuid,
                  primary_key := true, foreign_keys := [] }],
    relationships := [], serialize_rules := none }

/-- Child table of the end-to-end scenario: a `status` column with an
override, and a `pipeline_id` foreign key covered by no declared
relationship, so a relationship is inferred for it. -/
def jobModel : Model :=
  { fullname := "job", clsName := "Job",
    columns := [{ name := "id", key := "id", ctype := .uuid,
                  primary_key := true, foreign_keys := [] },
                { name := "status", key := "status", ctype := .string none,
                  primary_key := false, foreign_keys := [] },
                { name := "pipeline_id", key := "pipeline_id", ctype := .integer,
                  primary_key := false, foreign_keys := ["pipeline"] }],
    relationships := [], serialize_rules := some [] }

/-- Override table of the end-to-end scenario. -/
def jobOv : Ovr := [("job", [("status", .vStr "RUNNING")])]

/-- Override table mapping `t.status` to the falsy value `0`. -/
def zeroOv : Ovr := [("t", [("status", .vInt 0)])]

/-- Table with a single overridable integer column. -/
def tModel : Model :=
  { fullname := "t", clsName := "T",
    columns := [{ name := "status", key := "status", ctype := .integer,
                  primary_key := false, foreign_keys := [] }],
    relationships := [], serialize_rules := none }

/-- Mixed cycle: `p` reaches `c` through a declared relationship and `c`
reaches back to `p` through an inferred one. -/
def pModel : Model :=
  { fullname := "p", clsName := "P",
    columns := [{ name := "c_id", key := "c_id", ctype := .integer,
                  primary_key := false, foreign_keys := ["c"] }],
    relationships := [{ key := "child", local_columns := ["c_id"],
                        target := "c", uselist := false }],
    serialize_rules := none }

/-- Counterpart of `pModel`: its `p_id` column triggers inference. -/
def cModel : Model :=
  { fullname := "c", clsName := "C",
    columns := [{ name := "p_id", key := "p_id", ctype := .integer,
                  primary_key := false, foreign_keys := ["p"] }],
    relationships := [], serialize_rules := none }

/-- Parent with a declared collection relationship to `ccModel`. -/
def ppModel : Model :=
  { fullname := "pp", clsName := "PP",
    columns := [{ name := "x_id", key := "x_id", ctype := .integer,
                  primary_key := false, foreign_keys := ["cc"] }],
    relationships := [{ key := "children", local_columns := ["x_id"],
                        target := "cc", uselist := true }],
    serialize_rules := none }

/-- Collection target of `ppModel`. -/
def ccModel : Model :=
  { fullname := "cc", clsName := "CC",
    columns := [{ name := "n", key := "n", ctype := .integer,
                  primary_key := false, foreign_keys := [] }],
    relationships := [], serialize_rules := none }

/-- Model with a composite-join declared relationship: only the first
local column `a` enters `relation_cols`, so the second join column `b_id`
is treated as uncovered. -/
def m7Model : Model :=
  { fullname := "m7", clsName := "M7",
    columns := [{ name := "a", key := "a", ctype := .integer,
                  primary_key := false, foreign_keys := [] },
                { name := "b_id", key := "b_id", ctype := .integer,
                  primary_key := false, foreign_keys := ["u7"] }],
    relationships := [{ key := "rel7", local_columns := ["a", "b_id"],
                        target := "u7", uselist := false }],
    serialize_rules := none }

theorem node_registry_empty (ps : List String) :
    make_factory [] 0 nodeModel ps (st0 [nodeModel]) = .error .outOfFuel := rfl

/-- Claim C1: the specification states that `make_factory` terminates on
every entity type of a finite schema graph, in particular on a
self-referencing entity type reached through an inferred relationship.
The code does not: for the table `node`, whose `node_id` column is an
uncovered foreign key to `node` itself, the inferred-relationship loop
recurses into `make_factory` for `node` again without consulting
`processed_tables` and before any factory is registered, so the build
exhausts every fuel bound, i.e. the Python code recurses without bound. -/
theorem c1_inferred_selfloop_diverges :
    ∀ (fuel : Nat) (ps : List String),
      make_factory [] fuel nodeModel ps (st0 [nodeModel]) = .error .outOfFuel := by
  intro fuel
  induction fuel with
  | zero => intro ps; rfl
  | succ n ih =>
    intro ps
    have h := ih ("node" :: ps)
    have e1 : pySuffix3 "node_id" = "_id" := by decide
    have e2 : pyDropLast3 "node_id" = "node" := by decide
    simp only [st0, nodeModel] at h
    simp [make_factory, st0, nodeModel, dlookup, relationColsOf, processColumns,
      processDeclared, processDynamic, lookupModel, overrideFor, data_providers,
      e1, e2, dinsert, h]

/-- Claim C4: the specification states that a relationship whose target is
already in the visited set is never recursed into, for declared and
inferred relationships alike.  The code checks `processed_tables` only in
the declared-relationship loop; the inferred-relationship loop recurses
unconditionally, so on the two-table schema whose edges `a.b_id -> b` and
`b.a_id -> a` are both inferred, the mutual recursion re-enters each
visited table and the build exhausts every fuel bound instead of omitting
the cyclic edge. -/
theorem c4_inferred_cycle_diverges :
    ∀ (fuel : Nat),
      (∀ ps, make_factory [] fuel aModel ps (st0 [aModel, bModel]) = .error .outOfFuel) ∧
      (∀ ps, make_factory [] fuel bModel ps (st0 [aModel, bModel]) = .error .outOfFuel) := by
  intro fuel
  induction fuel with
  | zero => exact ⟨fun ps => rfl, fun ps => rfl⟩
  | succ n ih =>
    constructor
    · intro ps
      have h := ih.2 ("a" :: ps)
      have e1 : pySuffix3 "b_id" = "_id" := by decide
      have e2 : pyDropLast3 "b_id" = "b" := by decide
      simp only [st0, aModel, bModel] at h
      simp [make_factory, st0, aModel, bModel, dlookup, relationColsOf, processColumns,
        processDeclared, processDynamic, lookupModel, overrideFor, data_providers,
        e1, e2, dinsert, h]
    · intro ps
      have h := ih.1 ("b" :: ps)
      have e1 : pySuffix3 "a_id" = "_id" := by decide
      have e2 : pyDropLast3 "a_id" = "a" := by decide
      simp only [st0, aModel, bModel] at h
      simp [make_factory, st0, aModel, bModel, dlookup, relationColsOf, processColumns,
        processDeclared, processDynamic, lookupModel, overrideFor, data_providers,
        e1, e2, dinsert, h]

/-- Registered state used to exercise the registry short-circuit. -/
def stC6 : St := { st0 [soloModel] with factory_registry := [("solo", 7)] }

/-- Claim C6 (amended): a factory-registry hit makes `make_factory` return
the registered factory immediately, with no state change and no further
work, whatever the fuel.  The permanence half of the original claim is
refuted separately: a factory can be rebuilt and re-registered when a
cyclic traversal re-enters the type through an inferred relationship
before the first build reaches its registration step. -/
theorem c6_registry_short_circuit (ov : Ovr) (fuel : Nat) (model : Model)
    (processed : List String) (st : St) (fid : Nat)
    (h : dlookup st.factory_registry model.fullname = some fid) :
    make_factory ov fuel model processed st = .ok (fid, st) := by
  cases fuel with
  | zero => simp [make_factory, h]
  | succ n => simp [make_factory, h]

theorem c6_registry_short_circuit_witness :
    make_factory [] 3 soloModel [] stC6 = .ok (7, stC6) :=
  c6_registry_short_circuit [] 3 soloModel [] stC6 7 (by decide)

/-- Claim C6, counterexample to the permanence half: on the mixed cycle
`p -> c` (declared) and `c -> p` (inferred), building `p` registers a
factory object for `p` twice.  The inner rebuild, entered from `c`'s
inferred relationship while the outer build of `p` was still in flight,
registers factory object `0` (the one captured by `c`'s `SubFactory`);
the outer build then overwrites the registry entry with the distinct
factory object `2`, so the factory registered first for `p` did not
survive the process lifetime. -/
theorem c6_rebuilt_counterexample :
    ∃ st1, make_factory [] 10 pModel [] (st0 [pModel, cModel]) = .ok (2, st1) ∧
      dlookup st1.factory_registry "p" = some 2 ∧
      (∃ FC, nlookup st1.facts 1 = some FC ∧ FC.meta_model = "c" ∧
        dlookup FC.attrs "p" = some (.subF 0)) ∧
      (∃ FP, nlookup st1.facts 0 = some FP ∧ FP.meta_model = "p") ∧
      (0 : Nat) ≠ 2 :=
  ⟨_, rfl, rfl, ⟨_, rfl, rfl, rfl⟩, ⟨_, rfl, rfl⟩, by decide⟩

theorem dlookup_dinsert_self {α : Type} (l : List (String × α)) (k : String) (v : α) :
    dlookup (dinsert l k v) k = some v := by
  induction l with
  | nil => simp [dinsert, dlookup]
  | cons hd tl ih =>
    obtain ⟨k1, v1⟩ := hd
    by_cases hk : k1 = k
    · simp [dinsert, hk, dlookup]
    · simp [dinsert, hk, dlookup, ih]

theorem dlookup_dinsert_ne {α : Type} (l : List (String × α)) (k : String) (v : α)
    (nm : String) (h : nm ≠ k) : dlookup (dinsert l k v) nm = dlookup l nm := by
  have hk : k ≠ nm := fun hh => h hh.symm
  induction l with
  | nil => simp [dinsert, dlookup, hk]
  | cons hd tl ih =>
    obtain ⟨k1, v1⟩ := hd
    by_cases h1 : k1 = k
    · subst h1
      simp [dinsert, dlookup, hk]
    · simp only [dinsert, if_neg h1, dlookup, ih]

theorem processColumns_frame (ov : Ovr) (tn : String) (rc : List String) :
    ∀ (cols : List Column) (dyn : List DynRel) (attrs attrs2 : List (String × FAttr))
      (dyn2 : List DynRel) (nm : String),
      processColumns ov tn rc cols dyn attrs = .ok (dyn2, attrs2) →
      nm ∉ cols.map (fun c => c.name) →
      dlookup attrs2 nm = dlookup attrs nm := by
  intro cols
  induction cols with
  | nil =>
    intro dyn attrs attrs2 dyn2 nm hok _
    simp [processColumns] at hok
    rw [hok.2]
  | cons col rest ih =>
    intro dyn attrs attrs2 dyn2 nm hok hnm
    have hne : nm ≠ col.name := by
      intro h; exact hnm (by simp [h])
    have hrest : nm ∉ rest.map (fun c => c.name) := by
      intro h; apply hnm; simp only [List.map, List.mem_cons]; exact Or.inr h
    rw [processColumns] at hok
    split at hok
    · exact ih dyn attrs attrs2 dyn2 nm hok hrest
    · split at hok
      · split at hok
        · rw [ih _ _ _ _ nm hok hrest, dlookup_dinsert_ne _ _ _ _ hne]
        · split at hok
          · rw [ih _ _ _ _ nm hok hrest, dlookup_dinsert_ne _ _ _ _ hne]
          · cases hok
      · split at hok
        · rw [ih _ _ _ _ nm hok hrest, dlookup_dinsert_ne _ _ _ _ hne]
        · cases hok

theorem processDeclared_frame (recur : Model → St → Except Err (Nat × St))
    (processed : List String) :
    ∀ (rels : List Relationship) (attrs attrs2 : List (String × FAttr)) (st st2 : St)
      (nm : String),
      processDeclared recur processed rels attrs st = .ok (attrs2, st2) →
      nm ∉ rels.map (fun r => r.key) →
      dlookup attrs2 nm = dlookup attrs nm := by
  intro rels
  induction rels with
  | nil =>
    intro attrs attrs2 st st2 nm hok _
    simp [processDeclared] at hok
    rw [hok.1]
  | cons r rest ih =>
    intro attrs attrs2 st st2 nm hok hnm
    have hne : nm ≠ r.key := by
      intro h; exact hnm (by simp [h])
    have hrest : nm ∉ rest.map (fun r => r.key) := by
      intro h; apply hnm; simp only [List.map, List.mem_cons]; exact Or.inr h
    rw [processDeclared] at hok
    split at hok
    · exact ih _ _ _ _ nm hok hrest
    · split at hok
      · cases hok
      · split at hok
        · cases hok
        · rw [ih _ _ _ _ nm hok hrest, dlookup_dinsert_ne _ _ _ _ hne]

theorem processDynamic_frame (recur : Model → St → Except Err (Nat × St)) (tn : String) :
    ∀ (dyn : List DynRel) (attrs attrs2 : List (String × FAttr)) (st st2 : St)
      (nm : String),
      processDynamic recur tn dyn attrs st = .ok (attrs2, st2) →
      nm ∉ dyn.map (fun d => d.relation_name) →
      dlookup attrs2 nm = dlookup attrs nm := by
  intro dyn
  induction dyn with
  | nil =>
    intro attrs attrs2 st st2 nm hok _
    simp [processDynamic] at hok
    rw [hok.1]
  | cons d rest ih =>
    intro attrs attrs2 st st2 nm hok hnm
    have hne : nm ≠ d.relation_name := by
      intro h; exact hnm (by simp [h])
    have hrest : nm ∉ rest.map (fun d => d.relation_name) := by
      intro h; apply hnm; simp only [List.map, List.mem_cons]; exact Or.inr h
    rw [processDynamic] at hok
    split at hok
    · cases hok
    · split at hok
      · cases hok
      · rw [ih _ _ _ _ nm hok hrest, dlookup_dinsert_ne _ _ _ _ hne]

/-- Per-column attribute policy actually implemented by the column loop:
a foreign-key column whose key is covered by `relation_cols` or lacks the
`_id` suffix gets no attribute at all; otherwise a truthy override is used
verbatim; otherwise the provider table decides (`none` when the provider
is missing, in which case the loop raises instead of producing). -/
def columnPolicy (ov : Ovr) (tn : String) (rc : List String) (col : Column) : Option FAttr :=
  if col.foreign_keys ≠ [] ∧ (col.key ∈ rc ∨ pySuffix3 col.key ≠ "_id") then none
  else
    match overrideFor ov tn col.name with
    | some v => if truthy v then some (.override v) else (data_providers col).map .provided
    | none => (data_providers col).map .provided

theorem processColumns_policy (ov : Ovr) (tn : String) (rc : List String) :
    ∀ (cols : List Column) (dyn : List DynRel) (attrs attrs2 : List (String × FAttr))
      (dyn2 : List DynRel) (col : Column),
      processColumns ov tn rc cols dyn attrs = .ok (dyn2, attrs2) →
      col ∈ cols →
      (cols.map (fun c => c.name)).Nodup →
      dlookup attrs2 col.name =
        (match columnPolicy ov tn rc col with
         | some a => some a
         | none => dlookup attrs col.name) := by
  intro cols
  induction cols with
  | nil => intro _ _ _ _ col _ hmem _; cases hmem
  | cons c rest ih =>
    intro dyn attrs attrs2 dyn2 col hok hmem hnodup
    simp only [List.map_cons, List.nodup_cons] at hnodup
    obtain ⟨hnd1, hnd2⟩ := hnodup
    rcases List.mem_cons.mp hmem with hc | hc
    · subst hc
      rw [processColumns] at hok
      split at hok
      · rename_i hcond
        rw [processColumns_frame ov tn rc rest _ _ attrs2 dyn2 col.name hok hnd1]
        simp [columnPolicy, hcond]
      · rename_i hcond
        split at hok
        · rename_i v hov
          split at hok
          · rename_i htr
            rw [processColumns_frame ov tn rc rest _ _ attrs2 dyn2 col.name hok hnd1,
              dlookup_dinsert_self]
            simp [columnPolicy, hcond, hov, htr]
          · rename_i htr
            split at hok
            · rename_i p hdp
              rw [processColumns_frame ov tn rc rest _ _ attrs2 dyn2 col.name hok hnd1,
                dlookup_dinsert_self]
              simp [columnPolicy, hcond, hov, htr, hdp]
            · cases hok
        · rename_i hov
          split at hok
          · rename_i p hdp
            rw [processColumns_frame ov tn rc rest _ _ attrs2 dyn2 col.name hok hnd1,
              dlookup_dinsert_self]
            simp [columnPolicy, hcond, hov, hdp]
          · cases hok
    · have hcne : col.name ≠ c.name := by
        intro h
        exact hnd1 (h ▸ List.mem_map_of_mem (fun x => x.name) hc)
      rw [processColumns] at hok
      split at hok
      · exact ih _ _ _ _ col hok hc hnd2
      · split at hok
        · split at hok
          · rw [ih _ _ _ _ col hok hc hnd2, dlookup_dinsert_ne _ _ _ _ hcne]
          · split at hok
            · rw [ih _ _ _ _ col hok hc hnd2, dlookup_dinsert_ne _ _ _ _ hcne]
            · cases hok
        · split at hok
          · rw [ih _ _ _ _ col hok hc hnd2, dlookup_dinsert_ne _ _ _ _ hcne]
          · cases hok

/-- Characteristic predicate of the columns that give rise to an inferred
relationship (lines 97-99): a foreign key exists, the key is not covered
by a declared relationship, and the key carries the `_id` suffix. -/
def isInferredCol (rc : List String) (c : Column) : Bool :=
  decide (c.foreign_keys ≠ [] ∧ c.key ∉ rc ∧ pySuffix3 c.key = "_id")

/-- Inferred relationships of a column list, as the column loop collects
them. -/
def inferredRelsOf (rc : List String) (cols : List Column) : List DynRel :=
  (cols.filter (isInferredCol rc)).map
    (fun c => { foreign_table_name := c.foreign_keys.headD (""),
                relation_name := pyDropLast3 c.key })

theorem inferredRelsOf_cons (rc : List String) (c : Column) (rest : List Column) :
    inferredRelsOf rc (c :: rest) = inferredRelsOf rc [c] ++ inferredRelsOf rc rest := by
  cases h : isInferredCol rc c <;>
    simp [inferredRelsOf, List.filter_cons, h]

theorem pushDyn_eq (rc : List String) (dyn : List DynRel) (c : Column)
    (h : ¬(c.foreign_keys ≠ [] ∧ (c.key ∈ rc ∨ pySuffix3 c.key ≠ "_id"))) :
    pushDyn dyn c = dyn ++ inferredRelsOf rc [c] := by
  by_cases hfk : c.foreign_keys = []
  · have hf : isInferredCol rc c = false := by simp [isInferredCol, hfk]
    simp [pushDyn, hfk, inferredRelsOf, List.filter_cons, hf]
  · push_neg at h
    obtain ⟨hnotin, hsuf⟩ := h hfk
    have ht : isInferredCol rc c = true := by simp [isInferredCol, hfk, hnotin, hsuf]
    simp [pushDyn, hfk, inferredRelsOf, List.filter_cons, ht]

theorem processColumns_dyn (ov : Ovr) (tn : String) (rc : List String) :
    ∀ (cols : List Column) (dyn : List DynRel) (attrs attrs2 : List (String × FAttr))
      (dyn2 : List DynRel),
      processColumns ov tn rc cols dyn attrs = .ok (dyn2, attrs2) →
      dyn2 = dyn ++ inferredRelsOf rc cols := by
  intro cols
  induction cols with
  | nil =>
    intro dyn attrs attrs2 dyn2 hok
    simp [processColumns] at hok
    simp [inferredRelsOf, hok.1]
  | cons c rest ih =>
    intro dyn attrs attrs2 dyn2 hok
    rw [processColumns] at hok
    split at hok
    · rename_i hcond
      have hf : isInferredCol rc c = false := by
        obtain ⟨hfk, hor⟩ := hcond
        rcases hor with hmem | hsuf
        · simp [isInferredCol, hmem]
        · simp [isInferredCol, hsuf]
      rw [ih _ _ _ _ hok, inferredRelsOf_cons]
      simp [inferredRelsOf, List.filter_cons, hf]
    · rename_i hcond
      have hpd : pushDyn dyn c = dyn ++ inferredRelsOf rc [c] := pushDyn_eq rc dyn c hcond
      split at hok
      · split at hok
        · rw [ih _ _ _ _ hok, hpd, List.append_assoc, ← inferredRelsOf_cons]
        · split at hok
          · rw [ih _ _ _ _ hok, hpd, List.append_assoc, ← inferredRelsOf_cons]
          · cases hok
      · split at hok
        · rw [ih _ _ _ _ hok, hpd, List.append_assoc, ← inferredRelsOf_cons]
        · cases hok

theorem processColumns_missing_provider (ov : Ovr) (tn : String) (rc : List String) :
    ∀ (cols : List Column) (dyn : List DynRel) (attrs : List (String × FAttr)) (col : Column),
      col ∈ cols →
      ¬(col.foreign_keys ≠ [] ∧ (col.key ∈ rc ∨ pySuffix3 col.key ≠ "_id")) →
      (∀ v, overrideFor ov tn col.name = some v → truthy v = false) →
      data_providers col = none →
      ∀ r, processColumns ov tn rc cols dyn attrs ≠ .ok r := by
  intro cols
  induction cols with
  | nil => intro _ _ col hmem _ _ _ _; cases hmem
  | cons c rest ih =>
    intro dyn attrs col hmem hskip hov hdp r hok
    rcases List.mem_cons.mp hmem with hc | hc
    · subst hc
      rw [processColumns] at hok
      split at hok
      · rename_i hcond; exact hskip hcond
      · split at hok
        · rename_i v hovv
          split at hok
          · rename_i htr
            rw [hov v hovv] at htr
            cases htr
          · split at hok
            · rename_i p hdpp
              rw [hdp] at hdpp
              cases hdpp
            · cases hok
        · split at hok
          · rename_i p hdpp
            rw [hdp] at hdpp
            cases hdpp
          · cases hok
    · rw [processColumns] at hok
      split at hok
      · exact ih _ _ col hc hskip hov hdp r hok
      · split at hok
        · split at hok
          · exact ih _ _ col hc hskip hov hdp r hok
          · split at hok
            · exact ih _ _ col hc hskip hov hdp r hok
            · cases hok
        · split at hok
          · exact ih _ _ col hc hskip hov hdp r hok
          · cases hok

/-- Extension order on `serialize_rules` values: an absent attribute stays
absent, a present tuple only ever grows by appending. -/
def srExt : Option (List String) → Option (List String) → Prop
  | none, b => b = none
  | some l, b => ∃ l2, b = some (l ++ l2)

theorem srExt_refl (a : Option (List String)) : srExt a a := by
  cases a with
  | none => rfl
  | some l => exact ⟨[], by simp⟩

theorem srExt_trans {a b c : Option (List String)} (h1 : srExt a b) (h2 : srExt b c) :
    srExt a c := by
  cases a with
  | none => rw [srExt] at h1 ⊢; rw [h1] at h2; exact h2
  | some l =>
    obtain ⟨l2, hb⟩ := h1
    rw [hb] at h2
    obtain ⟨l3, hc⟩ := h2
    exact ⟨l2 ++ l3, by rw [hc, List.append_assoc]⟩

/-- Presence of a relationship attribute of the given key on a model
class. -/
def relHasKey (rels : List Relationship) (k : String) : Prop :=
  ∃ r ∈ rels, r.key = k

instance (rels : List Relationship) (k : String) : Decidable (relHasKey rels k) :=
  List.decidableBEx _ rels

theorem relHasKey_mono_relSet (rels : List Relationship) (r : Relationship) (k : String)
    (h : relHasKey rels k) : relHasKey (relSet rels r) k := by
  induction rels with
  | nil => obtain ⟨x, hx, _⟩ := h; cases hx
  | cons r0 rest ih =>
    obtain ⟨x, hx, hk⟩ := h
    by_cases h0 : r0.key = r.key
    · rw [relSet, if_pos h0]
      rcases List.mem_cons.mp hx with hh | hh
      · exact ⟨r, List.mem_cons_self _ _, by rw [← h0, ← hh]; exact hk⟩
      · exact ⟨x, List.mem_cons_of_mem _ hh, hk⟩
    · rw [relSet, if_neg h0]
      rcases List.mem_cons.mp hx with hh | hh
      · exact ⟨x, by rw [hh]; exact List.mem_cons_self _ _, hk⟩
      · obtain ⟨y, hy, hyk⟩ := ih ⟨x, hh, hk⟩
        exact ⟨y, List.mem_cons_of_mem _ hy, hyk⟩

theorem relHasKey_relSet_self (rels : List Relationship) (r : Relationship) :
    relHasKey (relSet rels r) r.key := by
  induction rels with
  | nil => exact ⟨r, List.mem_cons_self _ _, rfl⟩
  | cons r0 rest ih =>
    by_cases h0 : r0.key = r.key
    · rw [relSet, if_pos h0]
      exact ⟨r, List.mem_cons_self _ _, rfl⟩
    · rw [relSet, if_neg h0]
      obtain ⟨y, hy, hyk⟩ := ih
      exact ⟨y, List.mem_cons_of_mem _ hy, hyk⟩

theorem lookupModel_updateModel (l : List Model) (tn : String) (f : Model → Model)
    (hf : ∀ m, (f m).fullname = m.fullname) (t : String) :
    lookupModel (updateModel l tn f) t =
      (if t = tn then (lookupModel l tn).map f else lookupModel l t) := by
  induction l with
  | nil => simp [updateModel, lookupModel]
  | cons m rest ih =>
    by_cases hm : m.fullname = tn
    · by_cases ht : t = tn
      · subst ht
        simp [updateModel, hm, lookupModel, hf m]
      · simp [updateModel, hm, lookupModel, hf m, ht, Ne.symm ht]
    · by_cases ht : t = tn
      · subst ht
        simp [updateModel, hm, lookupModel, ih]
      · simp [updateModel, hm, lookupModel, ih, ht]

/-- Evolution relation between two states of the model-class registry: no
model class is ever removed or added during a build, a class keeps its
table name, its relationship attributes are never deleted, and its
`serialize_rules` tuple only grows by appended exclusion strings. -/
structure StEvolves (s s2 : St) : Prop where
  dom : ∀ t, lookupModel s.models t = none → lookupModel s2.models t = none
  mono : ∀ t m, lookupModel s.models t = some m →
    ∃ m2, lookupModel s2.models t = some m2 ∧
      m2.fullname = m.fullname ∧
      (∀ k, relHasKey m.relationships k → relHasKey m2.relationships k) ∧
      srExt m.serialize_rules m2.serialize_rules

theorem StEvolves.refl (s : St) : StEvolves s s :=
  ⟨fun _ h => h, fun _ m h => ⟨m, h, rfl, fun _ hk => hk, srExt_refl _⟩⟩

theorem StEvolves.trans {s1 s2 s3 : St} (h12 : StEvolves s1 s2) (h23 : StEvolves s2 s3) :
    StEvolves s1 s3 := by
  constructor
  · intro t h; exact h23.dom t (h12.dom t h)
  · intro t m h
    obtain ⟨m2, h2, hfull, hrel, hsr⟩ := h12.mono t m h
    obtain ⟨m3, h3, hfull3, hrel3, hsr3⟩ := h23.mono t m2 h2
    exact ⟨m3, h3, by rw [hfull3, hfull], fun k hk => hrel3 k (hrel k hk),
      srExt_trans hsr hsr3⟩

theorem StEvolves.of_models_eq {s s2 : St} (h : s2.models = s.models) : StEvolves s s2 := by
  constructor
  · intro t hh; rw [h]; exact hh
  · intro t m hh; exact ⟨m, by rw [h]; exact hh, rfl, fun _ hk => hk, srExt_refl _⟩

theorem setattr_evolves (s s2 : St) (tn : String) (rel : Relationship) (x : String)
    (hs : s2.models = updateModel s.models tn (setattrFn rel x)) :
    StEvolves s s2 := by
  have hlu : ∀ t, lookupModel s2.models t =
      (if t = tn then (lookupModel s.models tn).map (setattrFn rel x)
       else lookupModel s.models t) := by
    intro t
    rw [hs]
    exact lookupModel_updateModel s.models tn (setattrFn rel x) (fun m => rfl) t
  constructor
  · intro t h
    rw [hlu t]
    by_cases ht : t = tn
    · subst ht; rw [if_pos rfl, h]; rfl
    · rw [if_neg ht]; exact h
  · intro t m h
    rw [hlu t]
    by_cases ht : t = tn
    · subst ht
      rw [if_pos rfl, h]
      refine ⟨_, rfl, rfl, ?_, ?_⟩
      · intro k hk
        exact relHasKey_mono_relSet _ _ _ hk
      · show srExt m.serialize_rules (setattrFn rel x m).serialize_rules
        cases hsr : m.serialize_rules with
        | none => simp [srExt, setattrFn, hsr]
        | some l =>
          rw [setattrFn, hsr]
          exact ⟨[x], rfl⟩
    · rw [if_neg ht]
      exact ⟨m, h, rfl, fun _ hk => hk, srExt_refl _⟩

theorem processDeclared_evolves (recur : Model → St → Except Err (Nat × St))
    (processed : List String)
    (hrec : ∀ m s fid s2, recur m s = .ok (fid, s2) → StEvolves s s2) :
    ∀ (rels : List Relationship) (attrs attrs2 : List (String × FAttr)) (st st2 : St),
      processDeclared recur processed rels attrs st = .ok (attrs2, st2) →
      StEvolves st st2 := by
  intro rels
  induction rels with
  | nil =>
    intro attrs attrs2 st st2 hok
    simp [processDeclared] at hok
    exact StEvolves.of_models_eq (by rw [hok.2])
  | cons r rest ih =>
    intro attrs attrs2 st st2 hok
    rw [processDeclared] at hok
    split at hok
    · exact ih _ _ _ _ hok
    · split at hok
      · cases hok
      · rename_i fm hfm
        split at hok
        · cases hok
        · rename_i fid st1 hrecur
          exact StEvolves.trans (hrec _ _ _ _ hrecur) (ih _ _ _ _ hok)

theorem processDynamic_evolves (recur : Model → St → Except Err (Nat × St)) (tn : String)
    (hrec : ∀ m s fid s2, recur m s = .ok (fid, s2) → StEvolves s s2) :
    ∀ (dyn : List DynRel) (attrs attrs2 : List (String × FAttr)) (st st2 : St),
      processDynamic recur tn dyn attrs st = .ok (attrs2, st2) →
      StEvolves st st2 := by
  intro dyn
  induction dyn with
  | nil =>
    intro attrs attrs2 st st2 hok
    simp [processDynamic] at hok
    exact StEvolves.of_models_eq (by rw [hok.2])
  | cons d rest ih =>
    intro attrs attrs2 st st2 hok
    rw [processDynamic] at hok
    split at hok
    · cases hok
    · rename_i fm hfm
      split at hok
      · cases hok
      · rename_i fid st1 hrecur
        refine StEvolves.trans (hrec _ _ _ _ hrecur) (StEvolves.trans ?_ (ih _ _ _ _ hok))
        exact setattr_evolves st1 _ tn
          { key := d.relation_name, local_columns := [d.relation_name ++ "_id"],
            target := fm.fullname, uselist := false } ("-" ++ d.relation_name) rfl

theorem make_factory_evolves (ov : Ovr) :
    ∀ (fuel : Nat) (model : Model) (ps : List String) (st : St) (fid : Nat) (st2 : St),
      make_factory ov fuel model ps st = .ok (fid, st2) → StEvolves st st2 := by
  intro fuel
  induction fuel with
  | zero =>
    intro model ps st fid st2 hok
    rw [make_factory] at hok
    split at hok
    · simp at hok
      exact StEvolves.of_models_eq (by rw [hok.2])
    · cases hok
  | succ n ih =>
    intro model ps st fid st2 hok
    rw [make_factory] at hok
    split at hok
    · simp at hok
      exact StEvolves.of_models_eq (by rw [hok.2])
    · split at hok
      · cases hok
      · rename_i dynrels attrs0 hpc
        split at hok
        · cases hok
        · rename_i attrs1 st1 hpd
          split at hok
          · cases hok
          · rename_i attrs2x st2x hpdy
            simp at hok
            have e1 : StEvolves st st1 :=
              processDeclared_evolves _ _ (fun m s f s2 h => ih m _ s f s2 h) _ _ _ _ _ hpd
            have e2 : StEvolves st1 st2x :=
              processDynamic_evolves _ _ (fun m s f s2 h => ih m _ s f s2 h) _ _ _ _ _ hpdy
            have e3 : StEvolves st2x st2 := StEvolves.of_models_eq (by rw [← hok.2])
            exact (e1.trans e2).trans e3

theorem processDynamic_targets (recur : Model → St → Except Err (Nat × St)) (tn : String)
    (hrec : ∀ m s fid s2, recur m s = .ok (fid, s2) → StEvolves s s2) :
    ∀ (dyn : List DynRel) (attrs attrs2 : List (String × FAttr)) (st st2 : St) (d : DynRel),
      processDynamic recur tn dyn attrs st = .ok (attrs2, st2) →
      d ∈ dyn →
      lookupModel st.models d.foreign_table_name ≠ none := by
  intro dyn
  induction dyn with
  | nil => intro _ _ _ _ d _ hd; cases hd
  | cons d0 rest ih =>
    intro attrs attrs2 st st2 d hok hd
    rw [processDynamic] at hok
    split at hok
    · cases hok
    · rename_i fm hfm
      rcases List.mem_cons.mp hd with hdd | hdd
      · subst hdd; rw [hfm]; intro hh; cases hh
      · split at hok
        · cases hok
        · rename_i fid st1 hrecur
          intro hnone
          have e1 : StEvolves st st1 := hrec _ _ _ _ hrecur
          refine ih _ _ _ _ d hok hdd ?_
          refine (setattr_evolves st1 _ tn
            { key := d0.relation_name, local_columns := [d0.relation_name ++ "_id"],
              target := fm.fullname, uselist := false } ("-" ++ d0.relation_name) rfl).dom _ ?_
          exact e1.dom _ hnone

theorem make_factory_ok_inversion (ov : Ovr) (fuel : Nat) (model : Model)
    (ps : List String) (st : St) (fid : Nat) (st2 : St)
    (hreg : dlookup st.factory_registry model.fullname = none)
    (hok : make_factory ov fuel model ps st = .ok (fid, st2)) :
    ∃ (n : Nat) (dyn : List DynRel) (attrs0 attrs1 attrs2 : List (String × FAttr))
      (st1 stc : St),
      fuel = n + 1 ∧
      processColumns ov model.fullname (relationColsOf model) model.columns [] [] =
        .ok (dyn, attrs0) ∧
      processDeclared (fun m s => make_factory ov n m (model.fullname :: ps) s)
        (model.fullname :: ps) model.relationships attrs0 st = .ok (attrs1, st1) ∧
      processDynamic (fun m s => make_factory ov n m (model.fullname :: ps) s)
        model.fullname dyn attrs1 st1 = .ok (attrs2, stc) ∧
      fid = stc.nextFid ∧
      st2 = { stc with
        facts := (stc.nextFid, { meta_model := model.fullname, attrs := attrs2 }) :: stc.facts,
        nextFid := stc.nextFid + 1,
        factory_registry := dinsert stc.factory_registry model.fullname stc.nextFid } := by
  cases fuel with
  | zero =>
    rw [make_factory, hreg] at hok
    cases hok
  | succ n =>
    rw [make_factory] at hok
    rw [hreg] at hok
    simp only [] at hok
    split at hok
    · cases hok
    · rename_i dyn attrs0 hpc
      split at hok
      · cases hok
      · rename_i attrs1 st1 hpd
        split at hok
        · cases hok
        · rename_i attrs2 stc hpdy
          simp at hok
          exact ⟨n, dyn, attrs0, attrs1, attrs2, st1, stc, rfl, hpc, hpd, hpdy,
            hok.1.symm, hok.2.symm⟩

theorem lookupModel_setattr_self (l : List Model) (tn : String) (rel : Relationship)
    (x : String) (m : Model) (h : lookupModel l tn = some m) :
    lookupModel (updateModel l tn (setattrFn rel x)) tn = some (setattrFn rel x m) := by
  rw [lookupModel_updateModel l tn (setattrFn rel x) (fun m => rfl) tn, if_pos rfl, h]
  rfl

/-- Observable trace of one inferred-relationship materialization on the
model class registered under `tn`: the relationship attribute is present,
and the class either has no `serialize_rules` or its tuple contains the
exclusion string. -/
def MutatedAt (st : St) (tn rname : String) : Prop :=
  ∃ m2, lookupModel st.models tn = some m2 ∧
    relHasKey m2.relationships rname ∧
    (m2.serialize_rules = none ∨
      ∃ l2, m2.serialize_rules = some l2 ∧ ("-" ++ rname) ∈ l2)

theorem MutatedAt_mono {s s2 : St} (e : StEvolves s s2) {tn rname : String}
    (h : MutatedAt s tn rname) : MutatedAt s2 tn rname := by
  obtain ⟨m2, hl, hk, hsr⟩ := h
  obtain ⟨m3, hl3, _, hkm, hsrm⟩ := e.mono _ _ hl
  refine ⟨m3, hl3, hkm _ hk, ?_⟩
  rcases hsr with hnone | ⟨l2, hsome, hmem⟩
  · rw [hnone] at hsrm
    exact Or.inl hsrm
  · rw [hsome] at hsrm
    obtain ⟨l3, hb⟩ := hsrm
    exact Or.inr ⟨l2 ++ l3, hb, List.mem_append_left _ hmem⟩

theorem setattr_mutatedAt (st1 : St) (tn : String) (rel : Relationship) (x : String)
    (m1 : Model) (hm1 : lookupModel st1.models tn = some m1) (hx : x = "-" ++ rel.key) :
    MutatedAt { st1 with models := (updateModel st1.models tn (setattrFn rel x)) }
      tn rel.key := by
  refine ⟨setattrFn rel x m1, lookupModel_setattr_self st1.models tn rel x m1 hm1,
    relHasKey_relSet_self _ _, ?_⟩
  cases hsr : m1.serialize_rules with
  | none => exact Or.inl (by simp [setattrFn, hsr])
  | some l1 =>
    refine Or.inr ⟨l1 ++ [x], by simp [setattrFn, hsr], ?_⟩
    rw [hx]
    exact List.mem_append_right _ (List.mem_singleton_self _)

theorem processDynamic_mutates (recur : Model → St → Except Err (Nat × St)) (tn : String)
    (hrec : ∀ m s fid s2, recur m s = .ok (fid, s2) → StEvolves s s2) :
    ∀ (dyn : List DynRel) (attrs attrs2 : List (String × FAttr)) (st st2 : St) (d : DynRel),
      processDynamic recur tn dyn attrs st = .ok (attrs2, st2) →
      d ∈ dyn →
      (∃ m1, lookupModel st.models tn = some m1) →
      MutatedAt st2 tn d.relation_name := by
  intro dyn
  induction dyn with
  | nil => intro _ _ _ _ d _ hd _; cases hd
  | cons d0 rest ih =>
    intro attrs attrs2 st st2 d hok hd hex
    rw [processDynamic] at hok
    split at hok
    · cases hok
    · rename_i fm hfm
      split at hok
      · cases hok
      · rename_i fid st1 hrecur
        have e1 : StEvolves st st1 := hrec _ _ _ _ hrecur
        obtain ⟨m1, hm1⟩ := hex
        obtain ⟨m1b, hm1b, _, _, _⟩ := e1.mono _ _ hm1
        rcases List.mem_cons.mp hd with hdd | hdd
        · subst hdd
          have hmut := setattr_mutatedAt st1 tn
            { key := d.relation_name, local_columns := [d.relation_name ++ "_id"],
              target := fm.fullname, uselist := false } ("-" ++ d.relation_name) m1b hm1b rfl
          have erest := processDynamic_evolves recur tn hrec rest _ _ _ _ hok
          exact MutatedAt_mono erest hmut
        · have e2 := setattr_evolves st1
            { st1 with models := (updateModel st1.models tn
                (setattrFn
                  { key := d0.relation_name,
                    local_columns := [d0.relation_name ++ "_id"],
                    target := fm.fullname,
                    uselist := false } ("-" ++ d0.relation_name))) } tn
            { key := d0.relation_name, local_columns := [d0.relation_name ++ "_id"],
              target := fm.fullname, uselist := false } ("-" ++ d0.relation_name) rfl
          obtain ⟨m1c, hm1c, _, _, _⟩ := e2.mono _ _ hm1b
          exact ih _ _ _ _ d hok hdd ⟨m1c, hm1c⟩

/-- Claim C10: for every inferred relationship it materializes,
`make_factory` mutates the live, shared model class as a side effect: the
class registered under the model's table name ends the build with a
relationship attribute named by the stripped column key, and, when the
class had a `serialize_rules` attribute, its tuple is an extension of the
original one containing the exclusion string `-<relation name>`.  The
mutation lives in the state returned by the build, i.e. it persists after
the call returns. -/
theorem c10_inferred_relationship_mutates_model (ov : Ovr) (fuel : Nat) (model : Model)
    (ps : List String) (st : St) (fid : Nat) (st2 : St) (d : DynRel)
    (hreg : dlookup st.factory_registry model.fullname = none)
    (hself : lookupModel st.models model.fullname = some model)
    (hok : make_factory ov fuel model ps st = .ok (fid, st2))
    (hd : d ∈ inferredRelsOf (relationColsOf model) model.columns) :
    ∃ m2, lookupModel st2.models model.fullname = some m2 ∧
      relHasKey m2.relationships d.relation_name ∧
      ∀ l, model.serialize_rules = some l →
        ∃ l2, m2.serialize_rules = some (l ++ l2) ∧ ("-" ++ d.relation_name) ∈ l ++ l2 := by
  obtain ⟨n, dyn, attrs0, attrs1, attrs2, st1, stc, hn, hpc, hpd, hpdy, hfid, hst2⟩ :=
    make_factory_ok_inversion ov fuel model ps st fid st2 hreg hok
  have hdyn : dyn = inferredRelsOf (relationColsOf model) model.columns := by
    have h := processColumns_dyn ov model.fullname (relationColsOf model)
      model.columns [] [] attrs0 dyn hpc
    simpa using h
  have hrec : ∀ m s f s2, make_factory ov n m (model.fullname :: ps) s = .ok (f, s2) →
      StEvolves s s2 :=
    fun m s f s2 h => make_factory_evolves ov n m _ s f s2 h
  have e1 : StEvolves st st1 := processDeclared_evolves _ _ hrec _ _ _ _ _ hpd
  obtain ⟨m1, hm1, _, _, _⟩ := e1.mono _ _ hself
  have hmut : MutatedAt stc model.fullname d.relation_name :=
    processDynamic_mutates _ _ hrec dyn attrs1 attrs2 st1 stc d hpdy
      (by rw [hdyn]; exact hd) ⟨m1, hm1⟩
  have hmodels : st2.models = stc.models := by rw [hst2]
  have e2 : StEvolves st1 stc := processDynamic_evolves _ _ hrec _ _ _ _ _ hpdy
  have e : StEvolves st stc := e1.trans e2
  obtain ⟨m2, hm2, _, _, hsr⟩ := e.mono _ _ hself
  obtain ⟨m2b, hm2b, hkey, hsrmut⟩ := hmut
  rw [hm2] at hm2b
  cases hm2b
  refine ⟨m2, by rw [hmodels]; exact hm2, hkey, ?_⟩
  intro l hl
  rw [hl] at hsr
  obtain ⟨l2, hsome⟩ := hsr
  rcases hsrmut with hnone | ⟨l3, hsome3, hmem⟩
  · rw [hnone] at hsome; cases hsome
  · rw [hsome] at hsome3
    cases hsome3
    exact ⟨l2, hsome, hmem⟩

theorem c10_inferred_relationship_mutates_model_witness :
    ∃ st2, make_factory jobOv 10 jobModel [] (st0 [jobModel, pipelineModel]) = .ok (1, st2) ∧
      ∃ m2, lookupModel st2.models "job" = some m2 ∧
        relHasKey m2.relationships "pipeline" ∧
        ∃ l2, m2.serialize_rules = some ([] ++ l2) ∧ ("-" ++ "pipeline") ∈ [] ++ l2 := by
  refine ⟨_, rfl, ?_⟩
  have h := c10_inferred_relationship_mutates_model jobOv 10 jobModel []
    (st0 [jobModel, pipelineModel]) 1 _ ⟨"pipeline", "pipeline"⟩ rfl (by decide) rfl (by decide)
  obtain ⟨m2, hm2, hk, hsr⟩ := h
  exact ⟨m2, hm2, hk, hsr [] rfl⟩

/-- Covered-column set as the specification sentence describes it: the
full set of column keys reached by following each declared relationship's
local join column(s). -/
def coveredColsSpec (model : Model) : List String :=
  model.relationships.flatMap (fun r => r.local_columns)

/-- Claim C7, counterexample: the code's covered set keeps only the first
local column of each declared relationship (`next(iter(...))`), not the
full set.  On `m7Model`, whose single declared relationship joins on the
two columns `a` and `b_id`, the key `b_id` is covered in the
specification's sense but absent from `relation_cols`, so the column loop
emits an inferred relationship for it anyway. -/
theorem c7_first_local_only_counterexample :
    ("b_id" ∈ coveredColsSpec m7Model) ∧ ("b_id" ∉ relationColsOf m7Model) ∧
      ∃ attrs, processColumns [] "m7" (relationColsOf m7Model) m7Model.columns [] [] =
        .ok ([{ foreign_table_name := "u7", relation_name := "b" }], attrs) :=
  ⟨by decide, by decide, _, rfl⟩

/-- Claim C7 (amended): the covered-column set contains exactly the first
local join column key of each declared relationship, and the resolver
emits an inferred relationship exactly for the foreign-key columns whose
key is not in that set and ends with the `_id` suffix, with relation name
the key minus the suffix and target the first discovered foreign key's
table. -/
theorem c7_resolver_characterization (ov : Ovr) (model : Model)
    (dyn : List DynRel) (attrs : List (String × FAttr))
    (hok : processColumns ov model.fullname (relationColsOf model) model.columns [] [] =
      .ok (dyn, attrs)) :
    (∀ k, k ∈ relationColsOf model ↔
      ∃ r ∈ model.relationships, r.local_columns.head? = some k) ∧
    (∀ dd, dd ∈ dyn ↔ ∃ c ∈ model.columns,
      (c.foreign_keys ≠ [] ∧ c.key ∉ relationColsOf model ∧ pySuffix3 c.key = "_id") ∧
      dd = { foreign_table_name := c.foreign_keys.headD (""),
             relation_name := pyDropLast3 c.key }) := by
  constructor
  · intro k
    simp [relationColsOf, List.mem_filterMap]
  · intro dd
    have hdyn : dyn = inferredRelsOf (relationColsOf model) model.columns := by
      simpa using processColumns_dyn ov model.fullname (relationColsOf model)
        model.columns [] [] attrs dyn hok
    rw [hdyn, inferredRelsOf]
    constructor
    · intro hmem
      obtain ⟨c, hc, hcd⟩ := List.mem_map.mp hmem
      obtain ⟨hcm, hcp⟩ := List.mem_filter.mp hc
      refine ⟨c, hcm, ?_, hcd.symm⟩
      rw [isInferredCol] at hcp
      exact of_decide_eq_true hcp
    · intro hspec
      obtain ⟨c, hcm, hcp, hdd⟩ := hspec
      apply List.mem_map.mpr
      refine ⟨c, List.mem_filter.mpr ⟨hcm, ?_⟩, hdd.symm⟩
      rw [isInferredCol]
      exact decide_eq_true hcp

theorem c7_resolver_characterization_witness :
    ∃ dyn attrs,
      processColumns [] m7Model.fullname (relationColsOf m7Model) m7Model.columns [] [] =
        .ok (dyn, attrs) ∧
      ((∀ k, k ∈ relationColsOf m7Model ↔
        ∃ r ∈ m7Model.relationships, r.local_columns.head? = some k) ∧
      (∀ dd, dd ∈ dyn ↔ ∃ c ∈ m7Model.columns,
        (c.foreign_keys ≠ [] ∧ c.key ∉ relationColsOf m7Model ∧ pySuffix3 c.key = "_id") ∧
        dd = { foreign_table_name := c.foreign_keys.headD (""),
               relation_name := pyDropLast3 c.key })) :=
  ⟨_, _, rfl, c7_resolver_characterization [] m7Model _ _ rfl⟩

/-- Success test on results: true exactly on `Except.ok`. -/
def exceptOk {ε α : Type} : Except ε α → Bool
  | .ok _ => true
  | .error _ => false

/-- Table whose only column is an `_id` foreign key pointing at a table
with no known model class. -/
def qModel : Model :=
  { fullname := "q", clsName := "Q",
    columns := [{ name := "ghost_id", key := "ghost_id", ctype := .integer,
                  primary_key := false, foreign_keys := ["ghost"] }],
    relationships := [], serialize_rules := none }

/-- Claim C9, counterexample: a foreign-key column whose key lacks the
`_id` suffix is skipped silently by the column loop even though its
target table `ghost` has no known entity type: `make_factory` succeeds
and the produced factory simply has no attribute for the column, instead
of failing fast as the claim demands for every foreign key with an
unknown target. -/
theorem c9_unknown_target_skipped_counterexample :
    refModel.columns.map (fun c => c.foreign_keys) = [["ghost"]] ∧
    lookupModel (st0 [refModel]).models "ghost" = none ∧
    ∃ st2, make_factory [] 5 refModel [] (st0 [refModel]) = .ok (0, st2) ∧
      ∃ F, nlookup st2.facts 0 = some F ∧ F.attrs = [] :=
  ⟨rfl, rfl, _, rfl, _, rfl, rfl⟩

/-- Claim C9 (amended): `make_factory` fails (never returns a factory) in
exactly the configuration-error situations the loop actually reaches: a
column that survives the foreign-key guard and has no truthy override but
whose type has no provider entry, or an inferred relationship whose
target table has no model class.  Foreign-key columns filtered out by the
guard are skipped silently even when their target is unknown. -/
theorem c9_config_error_fails (ov : Ovr) (fuel : Nat) (model : Model) (ps : List String)
    (st : St) (col : Column)
    (hreg : dlookup st.factory_registry model.fullname = none)
    (hcol : col ∈ model.columns)
    (h : (¬(col.foreign_keys ≠ [] ∧
            (col.key ∈ relationColsOf model ∨ pySuffix3 col.key ≠ "_id")) ∧
          (∀ v, overrideFor ov model.fullname col.name = some v → truthy v = false) ∧
          data_providers col = none)
        ∨ (isInferredCol (relationColsOf model) col = true ∧
           lookupModel st.models (col.foreign_keys.headD ("")) = none)) :
    exceptOk (make_factory ov fuel model ps st) = false := by
  cases hres : make_factory ov fuel model ps st with
  | error e => rfl
  | ok r =>
    exfalso
    obtain ⟨fid, st2⟩ := r
    obtain ⟨n, dyn, attrs0, attrs1, attrs2, st1, stc, hn, hpc, hpd, hpdy, hfid, hst2⟩ :=
      make_factory_ok_inversion ov fuel model ps st fid st2 hreg hres
    rcases h with ⟨hskip, hov, hdp⟩ | ⟨hinf, hunk⟩
    · exact processColumns_missing_provider ov model.fullname (relationColsOf model)
        model.columns [] [] col hcol hskip hov hdp _ hpc
    · have hdyn : dyn = inferredRelsOf (relationColsOf model) model.columns := by
        simpa using processColumns_dyn ov model.fullname (relationColsOf model)
          model.columns [] [] attrs0 dyn hpc
      have hd : DynRel.mk (col.foreign_keys.headD ("")) (pyDropLast3 col.key) ∈ dyn := by
        rw [hdyn, inferredRelsOf]
        exact List.mem_map_of_mem _ (List.mem_filter.mpr ⟨hcol, hinf⟩)
      have hrec : ∀ m s f s2, make_factory ov n m (model.fullname :: ps) s = .ok (f, s2) →
          StEvolves s s2 :=
        fun m s f s2 hh => make_factory_evolves ov n m _ s f s2 hh
      have e1 : StEvolves st st1 := processDeclared_evolves _ _ hrec _ _ _ _ _ hpd
      exact processDynamic_targets _ _ hrec dyn attrs1 attrs2 st1 stc _ hpdy hd
        (e1.dom _ hunk)

theorem c9_config_error_fails_witness :
    exceptOk (make_factory [] 5 qModel [] (st0 [qModel])) = false :=
  c9_config_error_fails [] 5 qModel [] (st0 [qModel])
    { name := "ghost_id", key := "ghost_id", ctype := .integer,
      primary_key := false, foreign_keys := ["ghost"] }
    rfl (by decide) (Or.inr ⟨by decide, rfl⟩)

theorem make_factory_attr_policy (ov : Ovr) (fuel : Nat) (model : Model) (ps : List String)
    (st st2 : St) (fid : Nat) (col : Column)
    (hreg : dlookup st.factory_registry model.fullname = none)
    (hok : make_factory ov fuel model ps st = .ok (fid, st2))
    (hcol : col ∈ model.columns)
    (hnodup : (model.columns.map (fun c => c.name)).Nodup)
    (hrel : ∀ r ∈ model.relationships, r.key ≠ col.name)
    (hdynn : ∀ c ∈ model.columns, pyDropLast3 c.key ≠ col.name) :
    ∃ F, nlookup st2.facts fid = some F ∧
      dlookup F.attrs col.name = columnPolicy ov model.fullname (relationColsOf model) col := by
  obtain ⟨n, dyn, attrs0, attrs1, attrs2, st1, stc, hn, hpc, hpd, hpdy, hfid, hst2⟩ :=
    make_factory_ok_inversion ov fuel model ps st fid st2 hreg hok
  have hfact : nlookup st2.facts fid =
      some { meta_model := model.fullname, attrs := attrs2 } := by
    rw [hst2, hfid]
    simp [nlookup]
  refine ⟨_, hfact, ?_⟩
  have h0 : dlookup attrs0 col.name =
      columnPolicy ov model.fullname (relationColsOf model) col := by
    have hp := processColumns_policy ov model.fullname (relationColsOf model)
      model.columns [] [] attrs0 dyn col hpc hcol hnodup
    rw [hp]
    cases columnPolicy ov model.fullname (relationColsOf model) col <;> simp [dlookup]
  have h1 : dlookup attrs1 col.name = dlookup attrs0 col.name := by
    apply processDeclared_frame _ _ model.relationships attrs0 attrs1 st st1 col.name hpd
    intro hmem
    obtain ⟨r, hr, hrn⟩ := List.mem_map.mp hmem
    exact hrel r hr hrn
  have h2 : dlookup attrs2 col.name = dlookup attrs1 col.name := by
    apply processDynamic_frame _ _ dyn attrs1 attrs2 st1 stc col.name hpdy
    intro hmem
    obtain ⟨dd, hdd, hdn⟩ := List.mem_map.mp hmem
    have hdyn2 : dyn = inferredRelsOf (relationColsOf model) model.columns := by
      simpa using processColumns_dyn ov model.fullname (relationColsOf model)
        model.columns [] [] attrs0 dyn hpc
    rw [hdyn2, inferredRelsOf] at hdd
    obtain ⟨c, hc, hcd⟩ := List.mem_map.mp hdd
    apply hdynn c (List.mem_filter.mp hc).1
    rw [← hcd] at hdn
    exact hdn
  rw [h2, h1, h0]

/-- Claim C3 (amended): for every column of a built entity type (under
uniqueness of column names and absence of name collisions with declared
or inferred relationship attributes), the factory attribute is exactly
`columnPolicy`: a foreign-key column whose key is covered by
`relation_cols` or lacks the `_id` suffix gets no attribute at all, even
when an override or a covered-set-exterior status would have applied —
only then a truthy override is used verbatim, a falsy or absent override
falls through to the provider.  Coverage alone, without a foreign key,
does not skip a column. -/
theorem c3_column_policy (ov : Ovr) (fuel : Nat) (model : Model) (ps : List String)
    (st st2 : St) (fid : Nat) (col : Column)
    (hreg : dlookup st.factory_registry model.fullname = none)
    (hok : make_factory ov fuel model ps st = .ok (fid, st2))
    (hcol : col ∈ model.columns)
    (hnodup : (model.columns.map (fun c => c.name)).Nodup)
    (hrel : ∀ r ∈ model.relationships, r.key ≠ col.name)
    (hdynn : ∀ c ∈ model.columns, pyDropLast3 c.key ≠ col.name) :
    ∃ F, nlookup st2.facts fid = some F ∧
      dlookup F.attrs col.name = columnPolicy ov model.fullname (relationColsOf model) col :=
  make_factory_attr_policy ov fuel model ps st st2 fid col hreg hok hcol hnodup hrel hdynn

theorem c3_column_policy_witness :
    ∃ st2, make_factory jobOv 10 jobModel [] (st0 [jobModel, pipelineModel]) = .ok (1, st2) ∧
      ∃ F, nlookup st2.facts 1 = some F ∧
        dlookup F.attrs "status" =
          columnPolicy jobOv "job" (relationColsOf jobModel)
            { name := "status", key := "status", ctype := .string none,
              primary_key := false, foreign_keys := [] } := by
  refine ⟨_, rfl, ?_⟩
  exact c3_column_policy jobOv 10 jobModel [] (st0 [jobModel, pipelineModel]) _ 1
    { name := "status", key := "status", ctype := .string none,
      primary_key := false, foreign_keys := [] }
    rfl rfl (by decide) (by decide) (by decide) (by decide)

/-- Claim C3, counterexample: the column `ref` of `refModel` carries a
foreign key but its key is not covered by any declared relationship and
does not end in `_id`; the claim requires it to receive a provider value,
but the loop leaves it with no attribute at all. -/
theorem c3_fk_column_skipped_counterexample :
    relationColsOf refModel = [] ∧
    overrideFor [] "r" "ref" = none ∧
    ∃ st2, make_factory [] 5 refModel [] (st0 [refModel]) = .ok (0, st2) ∧
      ∃ F, nlookup st2.facts 0 = some F ∧ dlookup F.attrs "ref" = none :=
  ⟨rfl, rfl, _, rfl, _, rfl, rfl⟩

/-- Claim C2 (amended): an override wins and is assigned verbatim exactly
when it is truthy by Python's rules and the column is not discarded by
the foreign-key guard (covered key, or key without the `_id` suffix); a
falsy override is silently replaced by the provider value, and a
guard-discarded foreign-key column gets no attribute even when an
override exists for it. -/
theorem c2_truthy_override_wins (ov : Ovr) (fuel : Nat) (model : Model) (ps : List String)
    (st st2 : St) (fid : Nat) (col : Column) (v : Val)
    (hreg : dlookup st.factory_registry model.fullname = none)
    (hok : make_factory ov fuel model ps st = .ok (fid, st2))
    (hcol : col ∈ model.columns)
    (hnodup : (model.columns.map (fun c => c.name)).Nodup)
    (hrel : ∀ r ∈ model.relationships, r.key ≠ col.name)
    (hdynn : ∀ c ∈ model.columns, pyDropLast3 c.key ≠ col.name)
    (hov : overrideFor ov model.fullname col.name = some v)
    (htruthy : truthy v = true)
    (hfk : col.foreign_keys = [] ∨
      (col.key ∉ relationColsOf model ∧ pySuffix3 col.key = "_id")) :
    ∃ F, nlookup st2.facts fid = some F ∧
      dlookup F.attrs col.name = some (.override v) := by
  obtain ⟨F, hF, hattr⟩ :=
    make_factory_attr_policy ov fuel model ps st st2 fid col hreg hok hcol hnodup hrel hdynn
  refine ⟨F, hF, ?_⟩
  rw [hattr]
  have hcond : ¬(col.foreign_keys ≠ [] ∧
      (col.key ∈ relationColsOf model ∨ pySuffix3 col.key ≠ "_id")) := by
    rcases hfk with hfk | ⟨hnotin, hsuf⟩
    · intro hh; exact hh.1 hfk
    · intro hh
      rcases hh.2 with hmem | hne
      · exact hnotin hmem
      · exact hne hsuf
  simp [columnPolicy, hcond, hov, htruthy]

theorem c2_truthy_override_wins_witness :
    ∃ st2, make_factory jobOv 10 jobModel [] (st0 [jobModel, pipelineModel]) = .ok (1, st2) ∧
      ∃ F, nlookup st2.facts 1 = some F ∧
        dlookup F.attrs "status" = some (.override (.vStr "RUNNING")) := by
  refine ⟨_, rfl, ?_⟩
  exact c2_truthy_override_wins jobOv 10 jobModel [] (st0 [jobModel, pipelineModel]) _ 1
    { name := "status", key := "status", ctype := .string none,
      primary_key := false, foreign_keys := [] } (.vStr "RUNNING")
    rfl rfl (by decide) (by decide) (by decide) (by decide) rfl rfl (Or.inl rfl)

/-- Claim C2, counterexample: the override `0` for `t.status` is falsy,
so `if override:` discards it and the provider value is assigned instead
of the override — the claim's promise for every possible override value
fails. -/
theorem c2_falsy_override_ignored_counterexample :
    overrideFor zeroOv "t" "status" = some (.vInt 0) ∧
    ∃ st2, make_factory zeroOv 5 tModel [] (st0 [tModel]) = .ok (0, st2) ∧
      ∃ F, nlookup st2.facts 0 = some F ∧
        dlookup F.attrs "status" = some (.provided (.faker .random_int)) ∧
        dlookup F.attrs "status" ≠ some (.override (.vInt 0)) :=
  ⟨rfl, _, rfl, _, rfl, rfl, by decide⟩

theorem evalDecls_mir_preserve (recur : Nat → St → Except Err (Nat × St))
    (hrec : ∀ f s i s2, recur f s = .ok (i, s2) → ∀ k j,
      dlookup s.model_instance_registry k = some j →
      dlookup s2.model_instance_registry k = some j) :
    ∀ (attrs : List (String × FAttr)) (fields fields2 : List (String × RVal)) (st st2 : St),
      evalDecls recur attrs fields st = .ok (fields2, st2) →
      ∀ k j, dlookup st.model_instance_registry k = some j →
        dlookup st2.model_instance_registry k = some j := by
  intro attrs
  induction attrs with
  | nil =>
    intro fields fields2 st st2 hok k j hj
    simp [evalDecls] at hok
    rw [← hok.2]
    exact hj
  | cons a rest ih =>
    intro fields fields2 st st2 hok k j hj
    obtain ⟨name, attr⟩ := a
    cases attr with
    | override v =>
      rw [evalDecls] at hok
      exact ih _ _ _ _ hok k j hj
    | provided p =>
      cases p with
      | faker fk =>
        rw [evalDecls] at hok
        exact ih _ _ _ _ hok k j hj
      | fuzzyFloat =>
        rw [evalDecls] at hok
        exact ih _ _ _ _ hok k j hj
      | constJson =>
        rw [evalDecls] at hok
        exact ih _ _ _ _ hok k j hj
    | subF fid =>
      rw [evalDecls] at hok
      split at hok
      · cases hok
      · rename_i iid st1 hr
        exact ih _ _ _ _ hok k j (hrec _ _ _ _ hr k j hj)
    | postGenMTO f r =>
      rw [evalDecls] at hok
      exact ih _ _ _ _ hok k j hj

theorem runPostGen_mir_preserve (recur : Nat → St → Except Err (Nat × St)) (self : Nat)
    (create : Bool)
    (hrec : ∀ f s i s2, recur f s = .ok (i, s2) → ∀ k j,
      dlookup s.model_instance_registry k = some j →
      dlookup s2.model_instance_registry k = some j) :
    ∀ (attrs : List (String × FAttr)) (st st2 : St),
      runPostGen recur self create attrs st = .ok st2 →
      ∀ k j, dlookup st.model_instance_registry k = some j →
        dlookup st2.model_instance_registry k = some j := by
  intro attrs
  induction attrs with
  | nil =>
    intro st st2 hok k j hj
    simp [runPostGen] at hok
    rw [← hok]
    exact hj
  | cons a rest ih =>
    intro st st2 hok k j hj
    obtain ⟨name, attr⟩ := a
    cases attr with
    | override v =>
      rw [runPostGen] at hok
      exact ih _ _ hok k j hj
    | provided p =>
      rw [runPostGen] at hok
      exact ih _ _ hok k j hj
    | subF f =>
      rw [runPostGen] at hok
      exact ih _ _ hok k j hj
    | postGenMTO f rn =>
      rw [runPostGen] at hok
      split at hok
      · exact ih _ _ hok k j hj
      · split at hok
        · cases hok
        · rename_i child st1 hr
          exact ih _ _ hok k j (hrec _ _ _ _ hr k j hj)

theorem call_factory_mir_preserve :
    ∀ (fuel : Nat) (fid : Nat) (create : Bool) (st : St) (i : Nat) (st2 : St),
      call_factory fuel fid create st = .ok (i, st2) →
      ∀ k j, dlookup st.model_instance_registry k = some j →
        dlookup st2.model_instance_registry k = some j := by
  intro fuel
  induction fuel with
  | zero => intro fid create st i st2 hok; cases hok
  | succ n ih =>
    intro fid create st i st2 hok k j hj
    rw [call_factory] at hok
    split at hok
    · cases hok
    · rename_i F hF
      split at hok
      · cases hok
      · rename_i fields st1 hev
        have hj1 := evalDecls_mir_preserve _ (fun f s i2 s2 h => ih f create s i2 s2 h)
          _ _ _ _ _ hev k j hj
        split at hok
        · rename_i hc
          subst hc
          split at hok
          · rename_i iid hiid
            split at hok
            · cases hok
            · rename_i st3 hpg
              simp at hok
              rw [← hok.2]
              exact runPostGen_mir_preserve _ iid true
                (fun f s i2 s2 h => ih f true s i2 s2 h) _ _ _ hpg k j hj1
          · rename_i hnone
            split at hok
            · cases hok
            · rename_i st3 hpg
              simp at hok
              rw [← hok.2]
              refine runPostGen_mir_preserve _ st1.nextIid true
                (fun f s i2 s2 h => ih f true s i2 s2 h) _ _ _ hpg k j ?_
              have hkne : k ≠ F.meta_model := by
                intro hh
                rw [hh, hnone] at hj1
                cases hj1
              show dlookup (dinsert st1.model_instance_registry F.meta_model st1.nextIid) k =
                some j
              rw [dlookup_dinsert_ne _ _ _ _ hkne]
              exact hj1
        · rename_i hc
          rw [Bool.not_eq_true] at hc
          subst hc
          split at hok
          · cases hok
          · rename_i st3 hpg
            simp at hok
            rw [← hok.2]
            exact runPostGen_mir_preserve _ st1.nextIid false
              (fun f s i2 s2 h => ih f false s i2 s2 h) _ _ _ hpg k j hj1

theorem call_factory_ensures (fuel : Nat) (fid : Nat) (st : St) (i : Nat) (st2 : St)
    (F : FactData)
    (hok : call_factory fuel fid true st = .ok (i, st2))
    (hF : nlookup st.facts fid = some F) :
    dlookup st2.model_instance_registry F.meta_model = some i := by
  cases fuel with
  | zero => cases hok
  | succ n =>
    rw [call_factory] at hok
    split at hok
    · cases hok
    · rename_i F2 hF2
      rw [hF] at hF2
      cases hF2
      split at hok
      · cases hok
      · rename_i fields st1 hev
        split at hok
        · split at hok
          · rename_i iid hiid
            split at hok
            · cases hok
            · rename_i st3 hpg
              simp at hok
              rw [← hok.2]
              have hcur : dlookup st1.model_instance_registry F.meta_model = some i := by
                rw [hiid, hok.1]
              exact runPostGen_mir_preserve _ iid true
                (fun f s i2 s2 h => call_factory_mir_preserve n f true s i2 s2 h) _ _ _ hpg
                F.meta_model i hcur
          · rename_i hnone
            split at hok
            · cases hok
            · rename_i st3 hpg
              simp at hok
              rw [← hok.2]
              refine runPostGen_mir_preserve _ st1.nextIid true
                (fun f s i2 s2 h => call_factory_mir_preserve n f true s i2 s2 h) _ _ _ hpg
                F.meta_model i ?_
              show dlookup (dinsert st1.model_instance_registry F.meta_model st1.nextIid)
                F.meta_model = some i
              rw [dlookup_dinsert_self, hok.1]
        · rename_i hc
          exact absurd rfl hc

theorem call_factory_cached (fuel : Nat) (fid : Nat) (st : St) (i : Nat) (st2 : St)
    (F : FactData) (j : Nat)
    (hok : call_factory fuel fid true st = .ok (i, st2))
    (hF : nlookup st.facts fid = some F)
    (hreg : dlookup st.model_instance_registry F.meta_model = some j) :
    i = j := by
  cases fuel with
  | zero => cases hok
  | succ n =>
    rw [call_factory] at hok
    split at hok
    · cases hok
    · rename_i F2 hF2
      rw [hF] at hF2
      cases hF2
      split at hok
      · cases hok
      · rename_i fields st1 hev
        have hreg1 := evalDecls_mir_preserve _
          (fun f s i2 s2 h => call_factory_mir_preserve n f true s i2 s2 h) _ _ _ _ _ hev
          F.meta_model j hreg
        split at hok
        · split at hok
          · rename_i iid hiid
            rw [hreg1] at hiid
            cases hiid
            split at hok
            · cases hok
            · simp at hok
              exact hok.1.symm
          · rename_i hnone
            rw [hreg1] at hnone
            cases hnone
        · rename_i hc
          exact absurd rfl hc

/-- Claim C5: at most one instance is materialized per entity type during
one generation session.  Any create-strategy invocation of any factory
whose `Meta.model` is a given table, run after any earlier successful
create-strategy invocation of a factory for the same table, returns the
very instance the earlier call produced: `RegistryModelFactory._create`
caches the first instance under the table name and every later `_create`
returns the cached one.  In particular, calling the same built factory
twice yields the identical instance both times. -/
theorem c5_instance_singleton (fuel1 fuel2 : Nat) (fid1 fid2 : Nat) (st st1 st2 : St)
    (F1 F2 : FactData) (i j : Nat)
    (hF1 : nlookup st.facts fid1 = some F1)
    (h1 : call_factory fuel1 fid1 true st = .ok (i, st1))
    (hF2 : nlookup st1.facts fid2 = some F2)
    (hsame : F2.meta_model = F1.meta_model)
    (h2 : call_factory fuel2 fid2 true st1 = .ok (j, st2)) :
    j = i := by
  have hreg1 : dlookup st1.model_instance_registry F1.meta_model = some i :=
    call_factory_ensures fuel1 fid1 st i st1 F1 h1 hF1
  have hreg2 : dlookup st1.model_instance_registry F2.meta_model = some i := by
    rw [hsame]
    exact hreg1
  exact call_factory_cached fuel2 fid2 st1 j st2 F2 i h2 hF2 hreg2

/-- First-component and state extractors for a successful run, used to
name intermediate states of concrete scenarios. -/
def okState (r : Except Err (Nat × St)) (d : St) : St :=
  match r with
  | .ok x => x.2
  | .error _ => d

/-- State after building the factory for `soloModel`. -/
def soloStA : St := okState (make_factory [] 5 soloModel [] (st0 [soloModel])) (st0 [])

/-- State after the first create-strategy invocation of the solo factory. -/
def soloStB : St := okState (call_factory 5 0 true soloStA) (st0 [])

theorem c5_instance_singleton_witness :
    make_factory [] 5 soloModel [] (st0 [soloModel]) = .ok (0, soloStA) ∧
    call_factory 5 0 true soloStA = .ok (0, soloStB) ∧
    ∃ stC, call_factory 5 0 true soloStB = .ok (0, stC) ∧ (0 : Nat) = 0 := by
  refine ⟨rfl, rfl, _, rfl, ?_⟩
  exact c5_instance_singleton 5 5 0 0 soloStA soloStB _ _ _ 0 0 rfl rfl rfl rfl rfl

/-- State after building the factory graph rooted at `ppModel`. -/
def ppStA : St := okState (make_factory [] 10 ppModel [] (st0 [ppModel, ccModel])) (st0 [])

/-- State after the first create-strategy invocation of the `pp` factory. -/
def ppStB : St := okState (call_factory 10 1 true ppStA) (st0 [])

/-- State after the second create-strategy invocation of the `pp` factory. -/
def ppStC : St := okState (call_factory 10 1 true ppStB) (st0 [])

/-- Claim C8, counterexample: the deferred collection-append runs on every
create-strategy invocation, including one satisfied by the instance
cache.  After the first invocation the single `pp` instance (heap id 0)
has `children = [1]`; the second invocation is a cache hit — the registry
already maps `pp` to instance 0 — yet the post-generation hook appends
again, leaving `children = [1, 1]`. -/
theorem c8_append_on_cache_hit_counterexample :
    make_factory [] 10 ppModel [] (st0 [ppModel, ccModel]) = .ok (1, ppStA) ∧
    call_factory 10 1 true ppStA = .ok (0, ppStB) ∧
    (∃ I, nlookup ppStB.heap 0 = some I ∧ dlookup I.colls "children" = some [1]) ∧
    dlookup ppStB.model_instance_registry "pp" = some 0 ∧
    call_factory 10 1 true ppStB = .ok (0, ppStC) ∧
    ∃ I, nlookup ppStC.heap 0 = some I ∧ dlookup I.colls "children" = some [1, 1] :=
  ⟨rfl, rfl, ⟨_, rfl, rfl⟩, rfl, rfl, _, rfl, rfl⟩

theorem processDeclared_wiring (recur : Model → St → Except Err (Nat × St))
    (processed : List String) :
    ∀ (rels : List Relationship) (attrs attrs2 : List (String × FAttr)) (st st2 : St)
      (r : Relationship),
      processDeclared recur processed rels attrs st = .ok (attrs2, st2) →
      r ∈ rels →
      r.target ∉ processed →
      (rels.map (fun x => x.key)).Nodup →
      ∃ fid, dlookup attrs2 r.key =
        some (if r.uselist = false then FAttr.subF fid else FAttr.postGenMTO fid r.key) := by
  intro rels
  induction rels with
  | nil => intro _ _ _ _ r _ hr _ _; cases hr
  | cons r0 rest ih =>
    intro attrs attrs2 st st2 r hok hr htarget hnodup
    simp only [List.map_cons, List.nodup_cons] at hnodup
    obtain ⟨hnd1, hnd2⟩ := hnodup
    rcases List.mem_cons.mp hr with hh | hh
    · subst hh
      rw [processDeclared] at hok
      split at hok
      · rename_i hmem
        exact absurd hmem htarget
      · split at hok
        · cases hok
        · split at hok
          · cases hok
          · rename_i fid st1 hrec
            refine ⟨fid, ?_⟩
            have hfr := processDeclared_frame recur processed rest _ attrs2 _ st2 r.key hok hnd1
            rw [hfr, dlookup_dinsert_self]
    · rw [processDeclared] at hok
      split at hok
      · exact ih _ _ _ _ r hok hh htarget hnd2
      · split at hok
        · cases hok
        · split at hok
          · cases hok
          · exact ih _ _ _ _ r hok hh htarget hnd2

/-- Claim C8 (amended): a declared collection relationship is wired as the
deferred append and a scalar one as a direct `SubFactory`, but the append
is gated on the create/build strategy flag, not on instance-cache hits:
a build-strategy run (`create = False`) performs no post-generation work
at all, while under the create strategy the hook runs on every
invocation, including those satisfied by the instance cache. -/
theorem c8_collection_wiring_strategy_gated :
    (∀ (ov : Ovr) (fuel : Nat) (model : Model) (ps : List String) (st st2 : St)
       (fid : Nat) (r : Relationship),
       dlookup st.factory_registry model.fullname = none →
       make_factory ov fuel model ps st = .ok (fid, st2) →
       r ∈ model.relationships →
       r.target ≠ model.fullname →
       r.target ∉ ps →
       (model.relationships.map (fun x => x.key)).Nodup →
       (∀ c ∈ model.columns, pyDropLast3 c.key ≠ r.key) →
       ∃ F fidt, nlookup st2.facts fid = some F ∧
         dlookup F.attrs r.key =
           some (if r.uselist = false then FAttr.subF fidt else FAttr.postGenMTO fidt r.key)) ∧
    (∀ (recur : Nat → St → Except Err (Nat × St)) (self : Nat)
       (attrs : List (String × FAttr)) (st : St),
       runPostGen recur self false attrs st = .ok st) := by
  constructor
  · intro ov fuel model ps st st2 fid r hreg hok hr htne htps hnodup hdynn
    obtain ⟨n, dyn, attrs0, attrs1, attrs2, st1, stc, hn, hpc, hpd, hpdy, hfid, hst2⟩ :=
      make_factory_ok_inversion ov fuel model ps st fid st2 hreg hok
    have htarget : r.target ∉ model.fullname :: ps := by
      intro hmem
      rcases List.mem_cons.mp hmem with hh | hh
      · exact htne hh
      · exact htps hh
    obtain ⟨fidt, h1⟩ :=
      processDeclared_wiring _ _ model.relationships attrs0 attrs1 st st1 r hpd hr
        htarget hnodup
    have h2 : dlookup attrs2 r.key = dlookup attrs1 r.key := by
      apply processDynamic_frame _ _ dyn attrs1 attrs2 st1 stc r.key hpdy
      intro hmem
      obtain ⟨dd, hdd, hdn⟩ := List.mem_map.mp hmem
      have hdyn2 : dyn = inferredRelsOf (relationColsOf model) model.columns := by
        simpa using processColumns_dyn ov model.fullname (relationColsOf model)
          model.columns [] [] attrs0 dyn hpc
      rw [hdyn2, inferredRelsOf] at hdd
      obtain ⟨c, hc, hcd⟩ := List.mem_map.mp hdd
      apply hdynn c (List.mem_filter.mp hc).1
      rw [← hcd] at hdn
      exact hdn
    have hfact : nlookup st2.facts fid =
        some { meta_model := model.fullname, attrs := attrs2 } := by
      rw [hst2, hfid]
      simp [nlookup]
    exact ⟨_, fidt, hfact, by rw [h2, h1]⟩
  · intro recur self attrs
    induction attrs with
    | nil => intro st; rfl
    | cons a rest ih =>
      intro st
      obtain ⟨name, attr⟩ := a
      cases attr with
      | override v => rw [runPostGen]; exact ih st
      | provided p => rw [runPostGen]; exact ih st
      | subF f => rw [runPostGen]; exact ih st
      | postGenMTO f rn =>
        rw [runPostGen, if_pos rfl]
        exact ih st

theorem c8_collection_wiring_strategy_gated_witness :
    (∃ F fidt, nlookup ppStA.facts 1 = some F ∧
      dlookup F.attrs "children" = some (FAttr.postGenMTO fidt "children")) ∧
    runPostGen (fun f s => call_factory 3 f false s) 0 false
      [("children", FAttr.postGenMTO 0 "children")] ppStA = .ok ppStA := by
  constructor
  · obtain ⟨F, fidt, hF, hattr⟩ := c8_collection_wiring_strategy_gated.1 [] 10 ppModel []
      (st0 [ppModel, ccModel]) ppStA 1
      { key := "children", local_columns := ["x_id"], target := "cc", uselist := true }
      rfl rfl (by decide) (by decide) (by decide) (by decide) (by decide)
    exact ⟨F, fidt, hF, hattr⟩
  · exact c8_collection_wiring_strategy_gated.2 (fun f s => call_factory 3 f false s) 0
      [("children", FAttr.postGenMTO 0 "children")] ppStA

end MFG
